import Mathlib

/-!
Verification of the incremental ink-stroke tessellator (`PathBufferData`,
`src/path/pathBufferData.ts`, change-tracking revision) against its
natural-language specification.

The embedding is a direct shallow translation of the TypeScript class:

* JS numbers are modelled as `ℚ`.  The transcendental library calls the code
  makes (`Math.sqrt`, `Math.cos`, `Math.sin`, `Math.PI`) are abstracted into a
  record of function symbols `RealFns`; every theorem either holds for all
  such records (when the claim does not depend on their values) or takes the
  facts it needs about them as hypotheses, and concrete executions use a
  record whose entries agree with the genuine mathematical values at every
  point where the execution consults them in a way that matters.
* `Float32Array` / `Uint32Array` are fixed-size stores that silently ignore
  out-of-bounds writes, exactly like JS typed arrays.
* The mutable class instance becomes an explicit state record `PBD`; each
  method is a state-passing function.  Scratch `Vector2` temporaries that the
  source only uses within a single method call become `let`-bindings; the
  `previous_*` fields, which persist across calls, stay in the state.
* Two ghost fields (`log`, a record of every buffer write performed, and
  `tess`, the list of path points actually handed to the tessellator) are
  threaded through for specification purposes only; no executable decision in
  the model ever reads them.
-/

set_option maxRecDepth 8000

namespace PathInk

/-- A 2D vector, mirroring the parts of BabylonJS `Vector2` the source uses. -/
structure Vec2 where
  x : ℚ
  y : ℚ
  deriving DecidableEq, Repr

/-- The mathematical library functions the source consults
(`Math.sqrt`, `Math.cos`, `Math.sin`, `Math.PI`), abstracted as data. -/
structure RealFns where
  sqrt : ℚ → ℚ
  cos : ℚ → ℚ
  sin : ℚ → ℚ
  pi : ℚ

/-- BabylonJS `Vector2.subtract`. -/
def Vec2.sub (a b : Vec2) : Vec2 := ⟨a.x - b.x, a.y - b.y⟩

/-- BabylonJS `Vector2.add`. -/
def Vec2.add (a b : Vec2) : Vec2 := ⟨a.x + b.x, a.y + b.y⟩

/-- BabylonJS `Vector2.scale`. -/
def Vec2.scale (a : Vec2) (k : ℚ) : Vec2 := ⟨a.x * k, a.y * k⟩

/-- BabylonJS `Vector2.length`: `Math.sqrt(x*x + y*y)`. -/
def Vec2.len (M : RealFns) (a : Vec2) : ℚ := M.sqrt (a.x * a.x + a.y * a.y)

/-- BabylonJS `Vector2.normalize`: scale by `1/length`, identity when the
computed length is `0` (Babylon guards the zero case). -/
def Vec2.normalize (M : RealFns) (a : Vec2) : Vec2 :=
  let l := a.len M
  if l = 0 then a else a.scale (1 / l)

/-- BabylonJS `Vector2.Dot`. -/
def Vec2.dot (a b : Vec2) : ℚ := a.x * b.x + a.y * b.y

/-- JS `Number.MAX_VALUE` as an exact rational: `(2 - 2^-52) * 2^1023 =
2^1024 - 2^971`, written out as a literal so that it evaluates without
exponentiation. -/
def maxValue : ℚ := 179769313486231570814527423731704356798070567525844996598917476803157260780028538760589558632766878171540458953514382464234321326889464182768467546703537516986049910576551282076245490090389328944075868508455133942304583236903222948165808559332123348274797826204144723168738177180919299881250404026184124858368

/-- JS remainder `a % b` for the nonnegative dividend / positive divisor uses
in the source (`_currentDebounce % _debounce`); in that range the truncated JS
remainder coincides with `a - b * ⌊a / b⌋`. -/
def jsMod (a b : ℚ) : ℚ := a - b * (⌊a / b⌋ : ℤ)

/-- A `Float32Array`: fixed size, zero-initialised, out-of-bounds writes are
silently dropped (JS typed-array semantics).  The stored values are the exact
rationals the model computes. -/
structure FloatBuf where
  size : ℕ
  data : ℕ → ℚ

/-- Write one scalar, ignored when the offset is out of bounds. -/
def FloatBuf.write (b : FloatBuf) (i : ℕ) (v : ℚ) : FloatBuf :=
  if i < b.size then { b with data := fun j => if j = i then v else b.data j } else b

/-- A zero-filled `Float32Array` of the given length. -/
def FloatBuf.zeros (n : ℕ) : FloatBuf := ⟨n, fun _ => 0⟩

/-- A `Uint32Array` holding vertex indices (the source only ever stores small
naturals in it, so no wraparound is modelled). -/
structure UIntBuf where
  size : ℕ
  data : ℕ → ℕ

/-- Write one entry, ignored when the offset is out of bounds. -/
def UIntBuf.write (b : UIntBuf) (i : ℕ) (v : ℕ) : UIntBuf :=
  if i < b.size then { b with data := fun j => if j = i then v else b.data j } else b

/-- A zero-filled `Uint32Array` of the given length. -/
def UIntBuf.zeros (n : ℕ) : UIntBuf := ⟨n, fun _ => 0⟩

/-- The change-region trackers (`PathBufferDataChanges`). -/
structure Changes where
  indexStart : ℚ
  indexEnd : ℚ
  vertexPositionStart : ℚ
  vertexPositionEnd : ℚ
  vertexDistanceStart : ℚ
  vertexDistanceEnd : ℚ
  deriving DecidableEq, Repr

/-- Ghost record of one buffer write: a vertex write (position triple plus
distance scalar at vertex index `idx`) or a triangle write (three index-buffer
entries at triangle index `idx`).  `cap` records the vertex capacity
(`_maxVerticesCount`) at the moment of the write, so that in-bounds statements
can refer to the buffer sizes in force when the write happened. -/
inductive WriteEv
  | vert (idx : ℕ) (x y z d : ℚ) (cap : ℕ)
  | tri (idx : ℕ) (a b c : ℕ) (cap : ℕ)
  deriving DecidableEq, Repr

/-- The vertex index of a ghost write event (the triangle index for `tri`). -/
def WriteEv.index : WriteEv → ℕ
  | .vert i _ _ _ _ _ => i
  | .tri i _ _ _ _ => i

/-- Whether a ghost event is a vertex write. -/
def WriteEv.isVert : WriteEv → Bool
  | .vert _ _ _ _ _ _ => true
  | .tri _ _ _ _ _ => false

/-- The vertex capacity in force when the write happened. -/
def WriteEv.cap : WriteEv → ℕ
  | .vert _ _ _ _ _ c => c
  | .tri _ _ _ _ c => c

/-- The whole `PathBufferData` instance state.  Fields named after the source;
`log` and `tess` are ghost (specification-only). -/
structure PBD where
  smoothingDistance : ℚ
  roundness : ℚ
  radius : ℚ
  debounce : ℚ
  roundnessSliceAlpha : ℚ
  maxAddedVerticesPerPoint : ℚ
  maxVerticesCount : ℕ
  positions : FloatBuf
  distances : FloatBuf
  indices : UIntBuf
  indicesCount : ℕ
  nextVertexIndex : ℕ
  nextTriangleIndex : ℕ
  previousPoint : Vec2
  currentPoint : Vec2
  points : List ℚ
  previous_translation : Vec2
  previous_thicknessDirection : Vec2
  previous_thicknessDirectionScaled : Vec2
  previous_p1 : Vec2
  previous_p2 : Vec2
  previous_p3 : Vec2
  previous_p4 : Vec2
  previous_p2Index : ℕ
  previous_p3Index : ℕ
  previous_length : ℚ
  currentDebounce : ℚ
  changes : Changes
  log : List WriteEv
  tess : List Vec2

/-- The constructor options: each field either supplied (`some`) or absent
from the partial options object (`none`). -/
structure OptIn where
  smoothingDistance : Option ℚ := none
  roundness : Option ℚ := none
  radius : Option ℚ := none
  debounce : Option ℚ := none

/-- `PathBufferData._VerticesStartSize`. -/
def verticesStartSize : ℕ := 10000

/-- `PathBufferData._VerticesExpansionRate`. -/
def verticesExpansionRate : ℕ := 2

/-- The `PathBufferData` constructor: spread of the defaults under the given
partial options, then the `Math.max` clamps, slice angle, headroom budget and
zero-filled buffers (`_createBuffers`). -/
def mkPBD (M : RealFns) (o : OptIn) : PBD :=
  let smoothingDistance := max 5 (o.smoothingDistance.getD 20)
  let debounce := max 1 (o.debounce.getD 1)
  let roundness := max 4 (o.roundness.getD 16)
  let radius := max 1 (o.radius.getD 5)
  { smoothingDistance
    roundness
    radius
    debounce
    roundnessSliceAlpha := 2 * M.pi / roundness
    maxAddedVerticesPerPoint := (roundness / 2 + 1 + 4) + 20
    maxVerticesCount := verticesStartSize
    positions := FloatBuf.zeros (verticesStartSize * 3)
    distances := FloatBuf.zeros (verticesStartSize * 1)
    indices := UIntBuf.zeros (verticesStartSize * 3 * 2)
    indicesCount := 0
    nextVertexIndex := 0
    nextTriangleIndex := 0
    previousPoint := ⟨0, 0⟩
    currentPoint := ⟨0, 0⟩
    points := []
    previous_translation := ⟨0, 0⟩
    previous_thicknessDirection := ⟨0, 0⟩
    previous_thicknessDirectionScaled := ⟨0, 0⟩
    previous_p1 := ⟨0, 0⟩
    previous_p2 := ⟨0, 0⟩
    previous_p3 := ⟨0, 0⟩
    previous_p4 := ⟨0, 0⟩
    previous_p2Index := 0
    previous_p3Index := 0
    previous_length := 0
    currentDebounce := 0
    changes := ⟨0, 0, 0, 0, 0, 0⟩
    log := []
    tess := [] }

/-- `totalLength` getter. -/
def PBD.totalLength (s : PBD) : ℚ := s.previous_length

/-- `_updateVertexData`: write the position triple at `vertexIndex * 3`,
widen the position trackers with the base offset, write the distance scalar at
`vertexIndex`, widen the distance trackers.  Ghost: record the write. -/
def updateVertexData (s : PBD) (vertexIndex : ℕ) (x y z dist : ℚ) : PBD :=
  let pOff := vertexIndex * 3
  let positions := ((s.positions.write pOff x).write (pOff + 1) y).write (pOff + 2) z
  let dOff := vertexIndex * 1
  let distances := s.distances.write dOff dist
  { s with
    positions
    distances
    changes := { s.changes with
      vertexPositionStart := min s.changes.vertexPositionStart (pOff : ℚ)
      vertexPositionEnd := max s.changes.vertexPositionEnd (pOff : ℚ)
      vertexDistanceStart := min s.changes.vertexDistanceStart (dOff : ℚ)
      vertexDistanceEnd := max s.changes.vertexDistanceEnd (dOff : ℚ) }
    log := WriteEv.vert vertexIndex x y z dist s.maxVerticesCount :: s.log }

/-- `_pushVertexData`: write at the vertex cursor and advance it.  The source
returns the index it wrote at, which is always the cursor before the call;
call sites below bind that index (`s.nextVertexIndex`) right before invoking
this. -/
def pushVertexData (s : PBD) (x y z dist : ℚ) : PBD :=
  { updateVertexData s s.nextVertexIndex x y z dist with
    nextVertexIndex := s.nextVertexIndex + 1 }

/-- `_updateTriangleData`: write the three index-buffer entries at
`triangleIndex * 3` and widen the index trackers with the base offset.
Ghost: record the write. -/
def updateTriangleData (s : PBD) (triangleIndex a b c : ℕ) : PBD :=
  let tOff := triangleIndex * 3
  let indices := ((s.indices.write tOff a).write (tOff + 1) b).write (tOff + 2) c
  { s with
    indices
    changes := { s.changes with
      indexStart := min s.changes.indexStart (tOff : ℚ)
      indexEnd := max s.changes.indexEnd (tOff : ℚ) }
    log := WriteEv.tri triangleIndex a b c s.maxVerticesCount :: s.log }

/-- `_pushTriangleData`: write at the triangle cursor, advance it, refresh
`indicesCount`. -/
def pushTriangleData (s : PBD) (a b c : ℕ) : PBD :=
  let s := updateTriangleData s s.nextTriangleIndex a b c
  { s with
    nextTriangleIndex := s.nextTriangleIndex + 1
    indicesCount := (s.nextTriangleIndex + 1) * 3 }

/-- `_shouldExpand`: remaining headroom below the per-point worst case. -/
def shouldExpand (s : PBD) (newPointsCount : ℚ) : Bool :=
  decide ((s.nextVertexIndex : ℚ) >
    (s.maxVerticesCount : ℚ) - s.maxAddedVerticesPerPoint * newPointsCount)

/-- `_expandBuffers`: double the capacity, reallocate all three buffers and
copy the old contents into the prefix (`TypedArray.set`). -/
def expandBuffers (s : PBD) : PBD :=
  let newCount := s.maxVerticesCount * verticesExpansionRate
  { s with
    maxVerticesCount := newCount
    positions := ⟨newCount * 3,
      fun j => if j < s.positions.size then s.positions.data j else 0⟩
    distances := ⟨newCount * 1,
      fun j => if j < s.distances.size then s.distances.data j else 0⟩
    indices := ⟨newCount * 3 * 2,
      fun j => if j < s.indices.size then s.indices.data j else 0⟩ }

/-- `_quadraticBezierEquation`. -/
def quadraticBezierEquation (t val0 val1 val2 : ℚ) : ℚ :=
  (1 - t) * (1 - t) * val0 + 2 * t * (1 - t) * val1 + t * t * val2

/-- The loop index list of `for (let i = 1; i < roundness; i++)`: the naturals
`i ≥ 1` with `(i : ℚ) < roundness` (via `Nat.lt_ceil`). -/
def loopIdx (roundness : ℚ) : List ℕ := List.range' 1 (⌈roundness⌉₊ - 1)

/-- A `for` loop with an early `break`: items are consumed in order; once the
`cond` of an item holds, `brk` runs for it and every later item is skipped;
otherwise `step` runs.  Returns the state and whether the loop broke. -/
def breakFold (step : ℕ → PBD → PBD) (cond : ℕ → Bool) (brk : ℕ → PBD → PBD) :
    List ℕ → PBD × Bool → PBD × Bool
  | [], sb => sb
  | i :: is, (s, b) =>
    if b then (s, b)
    else if cond i then (brk i s, true)
    else breakFold step cond brk is (step i s, false)

/-- `_startPath`: full circular start cap (centre vertex, `roundness` contour
vertices, `roundness` wrapping triangles), then the cursor reset that keeps
only the centre vertex. -/
def startPath (M : RealFns) (s : PBD) : PBD :=
  let x := s.currentPoint.x
  let y := s.currentPoint.y
  let r := s.roundness
  let slice := s.roundnessSliceAlpha
  let radius := s.radius
  let centerIndex := s.nextVertexIndex
  let s := pushVertexData s x y 0 0
  let s := (List.range ⌈r⌉₊).foldl (fun s (i : ℕ) =>
    let alpha := (i : ℚ) * slice
    let xSlice := x + M.cos alpha * radius
    let ySlice := y + M.sin alpha * radius
    let contourIndex := s.nextVertexIndex
    let s := pushVertexData s xSlice ySlice 0 0
    if (i : ℚ) = r - 1 then
      pushTriangleData s centerIndex (centerIndex + 1) contourIndex
    else
      pushTriangleData s centerIndex (contourIndex + 1) contourIndex) s
  { s with nextTriangleIndex := 0, nextVertexIndex := 1 }

/-- `_firstSegment`: the quad between the first two path points, the start
half cap, the end centre vertex and end half cap, then the cursor reset to
`centerIndex + 1` / the recorded next-segment triangle index, and the
`previous_*` joint-memory updates. -/
def firstSegment (M : RealFns) (s : PBD) : PBD :=
  let r := s.roundness
  let slice := s.roundnessSliceAlpha
  let prevPt := s.previousPoint
  let curPt := s.currentPoint
  let translation0 := curPt.sub prevPt
  let currentSegmentDistance := translation0.len M
  let translation := translation0.normalize M
  let thicknessDirection : Vec2 := ⟨-translation.y, translation.x⟩
  let tds := thicknessDirection.scale s.radius
  let p1 := prevPt.sub tds
  let p2 := curPt.sub tds
  let p3 := curPt.add tds
  let p4 := prevPt.add tds
  let prevLen := s.previous_length
  let totalDistance := prevLen + currentSegmentDistance
  let p1Index := s.nextVertexIndex
  let s := pushVertexData s p1.x p1.y 0 prevLen
  let p2Index := s.nextVertexIndex
  let s := pushVertexData s p2.x p2.y 0 totalDistance
  let p3Index := s.nextVertexIndex
  let s := pushVertexData s p3.x p3.y 0 totalDistance
  let p4Index := s.nextVertexIndex
  let s := pushVertexData s p4.x p4.y 0 prevLen
  let s := pushTriangleData s p1Index p3Index p2Index
  let s := pushTriangleData s p3Index p1Index p4Index
  let nextSegTri0 := s.nextTriangleIndex
  let sb := breakFold
    (fun i s =>
      let alpha := (i : ℚ) * slice
      let xSlice := prevPt.x + (tds.x * M.cos alpha - tds.y * M.sin alpha)
      let ySlice := prevPt.y + (tds.x * M.sin alpha + tds.y * M.cos alpha)
      let contourIndex := s.nextVertexIndex
      let s := pushVertexData s xSlice ySlice 0 prevLen
      pushTriangleData s 0 contourIndex (contourIndex - 1))
    (fun i => decide ((i : ℚ) * slice ≥ M.pi))
    (fun _ s => pushTriangleData s 0 p1Index (s.nextVertexIndex - 1))
    (loopIdx r) (s, false)
  let s := sb.1
  let nextSegmentTriangleIndex := if sb.2 then s.nextTriangleIndex else nextSegTri0
  let centerIndex := s.nextVertexIndex
  let s := pushVertexData s curPt.x curPt.y 0 totalDistance
  let s := (breakFold
    (fun i s =>
      let alpha := (i : ℚ) * slice
      let xSlice := curPt.x + (-tds.x * M.cos alpha + tds.y * M.sin alpha)
      let ySlice := curPt.y + (-tds.x * M.sin alpha - tds.y * M.cos alpha)
      let contourIndex := s.nextVertexIndex
      let s := pushVertexData s xSlice ySlice 0 totalDistance
      if i = 1 then pushTriangleData s centerIndex contourIndex p2Index
      else pushTriangleData s centerIndex contourIndex (contourIndex - 1))
    (fun i => decide ((i : ℚ) * slice ≥ M.pi))
    (fun _ s => pushTriangleData s centerIndex p3Index (s.nextVertexIndex - 1))
    (loopIdx r) (s, false)).1
  { s with
    nextTriangleIndex := nextSegmentTriangleIndex
    nextVertexIndex := centerIndex + 1
    previous_length := totalDistance
    previous_translation := translation
    previous_thicknessDirection := thicknessDirection
    previous_thicknessDirectionScaled := tds
    previous_p1 := p1
    previous_p2 := p2
    previous_p3 := p3
    previous_p4 := p4
    previous_p2Index := p2Index
    previous_p3Index := p3Index }

/-- The joint-link block of `_addSegment` (the three-way case analysis on the
offset alignment `dot1` and travel alignment `dot2`), lifted out verbatim
with the values the block reads passed as arguments: collinear case (full
hemisphere on reversal, nothing on straight continuation), convex/outer fan
(`dot1 > 0`, stitched to the previous far vertex), concave/inner fan
(final `else`, reached exactly when `dot1 < 0`, stitched to the previous
`p2`). -/
def jointLink (M : RealFns) (r slice : ℚ) (prevPt tds ptds : Vec2) (prevLen : ℚ)
    (previousCenterIndex p1Index p4Index prevP2Index prevP3Index : ℕ)
    (dot1 dot2 : ℚ) (s : PBD) : PBD :=
  if dot1 = 0 then
    if dot2 < 0 then
      (breakFold
        (fun i s =>
          let alpha := (i : ℚ) * slice
          let xSlice := prevPt.x +
            (-tds.x * M.cos (alpha + M.pi) + tds.y * M.sin (alpha + M.pi))
          let ySlice := prevPt.y +
            (-tds.x * M.sin (alpha + M.pi) - tds.y * M.cos (alpha + M.pi))
          let contourIndex := s.nextVertexIndex
          let s := pushVertexData s xSlice ySlice 0 prevLen
          if i = 1 then pushTriangleData s previousCenterIndex contourIndex p4Index
          else pushTriangleData s previousCenterIndex contourIndex (contourIndex - 1))
        (fun i => decide ((i : ℚ) * slice ≥ M.pi))
        (fun _ s => pushTriangleData s previousCenterIndex p1Index (s.nextVertexIndex - 1))
        (loopIdx r) (s, false)).1
    else s
  else if dot1 > 0 then
    (breakFold
      (fun i s =>
        let alpha := (i : ℚ) * slice
        let xSlice := prevPt.x +
          (-tds.x * M.cos (alpha + M.pi) + tds.y * M.sin (alpha + M.pi))
        let ySlice := prevPt.y +
          (-tds.x * M.sin (alpha + M.pi) - tds.y * M.cos (alpha + M.pi))
        let contourIndex := s.nextVertexIndex
        let s := pushVertexData s xSlice ySlice 0 prevLen
        pushTriangleData s previousCenterIndex contourIndex (contourIndex - 1))
      (fun i => decide (M.cos ((i : ℚ) * slice) ≤ dot2))
      (fun _ s => pushTriangleData s previousCenterIndex prevP3Index (s.nextVertexIndex - 1))
      (loopIdx r) (s, false)).1
  else
    (breakFold
      (fun i s =>
        let alpha := (i : ℚ) * slice
        let xSlice := prevPt.x +
          (-ptds.x * M.cos alpha + ptds.y * M.sin alpha)
        let ySlice := prevPt.y +
          (-ptds.x * M.sin alpha - ptds.y * M.cos alpha)
        let contourIndex := s.nextVertexIndex
        let s := pushVertexData s xSlice ySlice 0 prevLen
        if i = 1 then pushTriangleData s previousCenterIndex contourIndex prevP2Index
        else pushTriangleData s previousCenterIndex contourIndex (contourIndex - 1))
      (fun i => decide (M.cos ((i : ℚ) * slice) ≤ dot2))
      (fun i s =>
        if i = 1 then pushTriangleData s previousCenterIndex p1Index prevP2Index
        else pushTriangleData s previousCenterIndex p1Index (s.nextVertexIndex - 1))
      (loopIdx r) (s, false)).1

/-- `_addSegment`: the interior-segment step — quad, joint link against the
previous segment (collinear / convex / concave cases), end centre vertex and
end half cap, cursor reset and `previous_*` updates. -/
def addSegment (M : RealFns) (s : PBD) : PBD :=
  let r := s.roundness
  let slice := s.roundnessSliceAlpha
  let previousCenterIndex := s.nextVertexIndex - 1
  let prevPt := s.previousPoint
  let curPt := s.currentPoint
  let translation0 := curPt.sub prevPt
  let currentSegmentDistance := translation0.len M
  let translation := translation0.normalize M
  let thicknessDirection : Vec2 := ⟨-translation.y, translation.x⟩
  let tds := thicknessDirection.scale s.radius
  let ptds := s.previous_thicknessDirectionScaled
  let prevP2Index := s.previous_p2Index
  let prevP3Index := s.previous_p3Index
  let p1 := prevPt.sub tds
  let p2 := curPt.sub tds
  let p3 := curPt.add tds
  let p4 := prevPt.add tds
  let prevLen := s.previous_length
  let totalDistance := prevLen + currentSegmentDistance
  let p1previous_p2 := (s.previous_p2.sub p1).normalize M
  let p1p2 := (p2.sub p1).normalize M
  let dot1 := p1previous_p2.dot p1p2
  let dot2 := s.previous_translation.dot translation
  let p1Index := s.nextVertexIndex
  let s := pushVertexData s p1.x p1.y 0 prevLen
  let p2Index := s.nextVertexIndex
  let s := pushVertexData s p2.x p2.y 0 totalDistance
  let p3Index := s.nextVertexIndex
  let s := pushVertexData s p3.x p3.y 0 totalDistance
  let p4Index := s.nextVertexIndex
  let s := pushVertexData s p4.x p4.y 0 prevLen
  let s := pushTriangleData s p1Index p3Index p2Index
  let s := pushTriangleData s p3Index p1Index p4Index
  let s := jointLink M r slice prevPt tds ptds prevLen
    previousCenterIndex p1Index p4Index prevP2Index prevP3Index dot1 dot2 s
  let nextSegmentTriangleIndex := s.nextTriangleIndex
  let centerIndex := s.nextVertexIndex
  let s := pushVertexData s curPt.x curPt.y 0 totalDistance
  let s := (breakFold
    (fun i s =>
      let alpha := (i : ℚ) * slice
      let xSlice := curPt.x + (-tds.x * M.cos alpha + tds.y * M.sin alpha)
      let ySlice := curPt.y + (-tds.x * M.sin alpha - tds.y * M.cos alpha)
      let contourIndex := s.nextVertexIndex
      let s := pushVertexData s xSlice ySlice 0 totalDistance
      if i = 1 then pushTriangleData s centerIndex contourIndex p2Index
      else pushTriangleData s centerIndex contourIndex (contourIndex - 1))
    (fun i => decide ((i : ℚ) * slice ≥ M.pi))
    (fun _ s => pushTriangleData s centerIndex p3Index (s.nextVertexIndex - 1))
    (loopIdx r) (s, false)).1
  { s with
    nextTriangleIndex := nextSegmentTriangleIndex
    nextVertexIndex := centerIndex + 1
    previous_length := totalDistance
    previous_translation := translation
    previous_thicknessDirection := thicknessDirection
    previous_thicknessDirectionScaled := tds
    previous_p1 := p1
    previous_p2 := p2
    previous_p3 := p3
    previous_p4 := p4
    previous_p2Index := p2Index
    previous_p3Index := p3Index }

/-- The dispatch block of `_addPoint`: start cap, first segment or interior
segment, keyed by the vertex cursor. -/
def tessellate (M : RealFns) (s : PBD) : PBD :=
  if s.nextVertexIndex = 0 then startPath M s
  else if s.nextVertexIndex = 1 then firstSegment M s
  else addSegment M s

/-- `_addPoint`: expand if needed, set the current point, dispatch on the
vertex cursor, then record the point as `previousPoint`.  Ghost: append the
point to the tessellated-point list. -/
def addPoint (M : RealFns) (s : PBD) (x y : ℚ) : PBD :=
  let s := if shouldExpand s 1 then expandBuffers s else s
  let s := { s with currentPoint := ⟨x, y⟩ }
  let s := tessellate M s
  { s with previousPoint := ⟨x, y⟩, tess := s.tess ++ [⟨x, y⟩] }

/-- `_addMidPoint`: tessellate the midpoint between the last raw point and the
new sample. -/
def addMidPoint (M : RealFns) (s : PBD) (x y : ℚ) : PBD :=
  let length := s.points.length
  let x1 := s.points.getD (length - 2) 0
  let y1 := s.points.getD (length - 1) 0
  let temp := (((Vec2.mk x y).sub ⟨x1, y1⟩).scale (1 / 2)).add ⟨x1, y1⟩
  addPoint M s temp.x temp.y

/-- `_addPointsSmoothly`: quadratic-Bézier interpolation towards the midpoint
of the last raw point and the new sample, then the midpoint itself. -/
def addPointsSmoothly (M : RealFns) (s : PBD) (x y : ℚ) : PBD :=
  let length := s.points.length
  let x1 := s.points.getD (length - 2) 0
  let y1 := s.points.getD (length - 1) 0
  let temp0 := (Vec2.mk x y).sub ⟨x1, y1⟩
  let distanceFromPreviousPoint := temp0.len M
  let mid := (temp0.scale (1 / 2)).add ⟨x1, y1⟩
  let steps : ℤ := ⌈distanceFromPreviousPoint / s.smoothingDistance⌉
  let s :=
    if steps > 1 then
      let previousX := s.previousPoint.x
      let previousY := s.previousPoint.y
      (List.range' 1 (steps.toNat - 1)).foldl (fun s (step : ℕ) =>
        let howFar : ℚ := (step : ℚ) / (steps : ℚ)
        let smoothX := quadraticBezierEquation howFar previousX x1 mid.x
        let smoothY := quadraticBezierEquation howFar previousY y1 mid.y
        addPoint M s smoothX smoothY) s
    else s
  addPoint M s mid.x mid.y

/-- `addPointToPath`: reset the change trackers, dispatch (first point /
changed point with debounce and minimum-step filtering / identical point),
and append the raw sample to the history except on the debounce early
return. -/
def addPointToPath (M : RealFns) (x y : ℚ) (s : PBD) : PBD :=
  let s := { s with changes := ⟨maxValue, 0, maxValue, 0, maxValue, 0⟩ }
  let pointsLength := s.points.length
  if pointsLength = 0 then
    let s := addPoint M s x y
    { s with points := s.points ++ [x, y] }
  else if ¬(s.previousPoint.x = x ∧ s.previousPoint.y = y) then
    let s := { s with currentDebounce := jsMod (s.currentDebounce + 1) s.debounce }
    if s.currentDebounce ≠ 0 then s
    else
      let s := { s with currentPoint := (Vec2.mk x y).sub s.previousPoint }
      let dist := s.currentPoint.len M
      let s :=
        if dist > s.radius / 2 then
          if pointsLength ≤ 2 then addMidPoint M s x y
          else addPointsSmoothly M s x y
        else s
      { s with points := s.points ++ [x, y] }
  else
    { s with points := s.points ++ [x, y] }

/-- Feed a list of raw samples to a freshly constructed instance. -/
def runSamples (M : RealFns) (o : OptIn) (pts : List (ℚ × ℚ)) : PBD :=
  pts.foldl (fun s p => addPointToPath M p.1 p.2 s) (mkPBD M o)

/-- The change-tracker record right after the per-call reset: all `start`
fields at the `Number.MAX_VALUE` sentinel, all `end` fields at `0`. -/
def sentinelChanges : Changes := ⟨maxValue, 0, maxValue, 0, maxValue, 0⟩

/-- The exact value of the double `Math.PI` as a rational. -/
def refPi : ℚ := 884279719003555 / 281474976710656

/-- A square-root table for the concrete executions below.  Every listed
value is the exact real square root of its argument; the concrete scenarios
only consult `Math.sqrt` at these perfect squares (squared distances of the
axis-aligned sample points), so the executions below take the same branches
as the real program. -/
def refSqrt (q : ℚ) : ℚ :=
  if q = 0 then 0
  else if q = 4 then 2
  else if q = 25 then 5
  else if q = 100 then 10
  else if q = 2500 then 50
  else if q = 10000 then 100
  else 0

/-- Interpretation of the library functions for the concrete executions:
`sqrt` by the exact table above, `cos`/`sin` exact at `0` (the only argument
at which any stated fact depends on them — all other cosine/sine calls in the
scenarios below only produce stored contour coordinates that no stated fact
reads), and `pi` the exact double `Math.PI`. -/
def refFns : RealFns :=
  { sqrt := refSqrt
    cos := fun q => if q = 0 then 1 else 0
    sin := fun _ => 0
    pi := refPi }

/-- The options of spec Scenario A (all fields explicitly at their
defaults). -/
def scenAOpts : OptIn :=
  { smoothingDistance := some 20, roundness := some 16, radius := some 5, debounce := some 1 }

/-- Scenario A: one `addPointToPath(0, 0)` call under Scenario A options. -/
def scenarioA : PBD := runSamples refFns scenAOpts [(0, 0)]

/-- Scenario B: Scenario A followed by `addPointToPath(100, 0)`. -/
def scenarioB : PBD := runSamples refFns scenAOpts [(0, 0), (100, 0)]

/-- A duplicate raw sample that is not the last tessellated point:
`(0,0), (100,0), (100,0)`. -/
def scenarioDup : PBD := runSamples refFns scenAOpts [(0, 0), (100, 0), (100, 0)]

/-- Scenario C: `(100,0)` twice; the second sample equals `previousPoint`. -/
def scenarioC : PBD := runSamples refFns scenAOpts [(100, 0), (100, 0)]

/-- The first call of Scenario C alone. -/
def scenarioC1 : PBD := runSamples refFns scenAOpts [(100, 0)]

/-- Scenario D, rejected case: a sample 2 units away with `radius = 5`. -/
def scenarioD1 : PBD := runSamples refFns scenAOpts [(0, 0), (2, 0)]

/-- Scenario D, accepted case: a sample 10 units away with `radius = 5`. -/
def scenarioD2 : PBD := runSamples refFns scenAOpts [(0, 0), (10, 0)]

/-- Debounce rejection: `debounce = 2`, so the second sample is dropped by
the debounce counter. -/
def scenarioDeb : PBD :=
  runSamples refFns { scenAOpts with debounce := some 2 } [(0, 0), (10, 0)]

/-- Modelled from the spec (for comparison against the constructor): the
spec's stated option policy — "each missing or invalid field replaced by its
default", where invalid means below the documented minimum of the field, and
then clamping.  The code's constructor instead keeps every supplied value and
only clamps. -/
def specDefaultIfInvalid (bound dflt : ℚ) (v : Option ℚ) : ℚ :=
  match v with
  | none => dflt
  | some q => if q < bound then dflt else q

/-- Modelled from the spec: the effective radius under the spec's
default-then-clamp reading (`radius` minimum 1, default 5). -/
def specEffectiveRadius (o : OptIn) : ℚ :=
  max 1 (specDefaultIfInvalid 1 5 o.radius)

/-- The three buffer sizes in terms of the vertex capacity, as
`_createBuffers` allocates them. -/
def SizeInv (s : PBD) : Prop :=
  s.positions.size = s.maxVerticesCount * 3 ∧
  s.distances.size = s.maxVerticesCount * 1 ∧
  s.indices.size = s.maxVerticesCount * 3 * 2

/-- All three buffers read as zero beyond their size (true of freshly
allocated typed arrays and preserved by the guarded writes). -/
def ZeroPad (s : PBD) : Prop :=
  (∀ j, s.positions.size ≤ j → s.positions.data j = 0) ∧
  (∀ j, s.distances.size ≤ j → s.distances.data j = 0) ∧
  (∀ j, s.indices.size ≤ j → s.indices.data j = 0)

/-- How the state evolves across the write primitives and loops inside one
tessellation routine: cursors only advance, data strictly below the entry
cursors is untouched, the option fields, buffers' sizes, capacity, raw-point
history, debounce counter, path cursor points, length and ghost
tessellated-point list are unchanged, zero padding is preserved, the change
trackers only widen, and the log grows by events that are within the exit
cursors, carry the current capacity, and are covered by the exit change
trackers. -/
structure Ev (s t : PBD) : Prop where
  nvi : s.nextVertexIndex ≤ t.nextVertexIndex
  nti : s.nextTriangleIndex ≤ t.nextTriangleIndex
  pos : ∀ j, j < 3 * s.nextVertexIndex → t.positions.data j = s.positions.data j
  dst : ∀ j, j < s.nextVertexIndex → t.distances.data j = s.distances.data j
  idx : ∀ j, j < 3 * s.nextTriangleIndex → t.indices.data j = s.indices.data j
  sd : t.smoothingDistance = s.smoothingDistance
  rnd : t.roundness = s.roundness
  rad : t.radius = s.radius
  deb : t.debounce = s.debounce
  slice : t.roundnessSliceAlpha = s.roundnessSliceAlpha
  mavp : t.maxAddedVerticesPerPoint = s.maxAddedVerticesPerPoint
  cap : t.maxVerticesCount = s.maxVerticesCount
  psize : t.positions.size = s.positions.size
  dsize : t.distances.size = s.distances.size
  isize : t.indices.size = s.indices.size
  pts : t.points = s.points
  cdb : t.currentDebounce = s.currentDebounce
  ppt : t.previousPoint = s.previousPoint
  cpt : t.currentPoint = s.currentPoint
  plen : t.previous_length = s.previous_length
  tss : t.tess = s.tess
  zpos : (∀ j, s.positions.size ≤ j → s.positions.data j = 0) →
    ∀ j, t.positions.size ≤ j → t.positions.data j = 0
  zdst : (∀ j, s.distances.size ≤ j → s.distances.data j = 0) →
    ∀ j, t.distances.size ≤ j → t.distances.data j = 0
  zidx : (∀ j, s.indices.size ≤ j → s.indices.data j = 0) →
    ∀ j, t.indices.size ≤ j → t.indices.data j = 0
  chg : t.changes.indexStart ≤ s.changes.indexStart ∧
    s.changes.indexEnd ≤ t.changes.indexEnd ∧
    t.changes.vertexPositionStart ≤ s.changes.vertexPositionStart ∧
    s.changes.vertexPositionEnd ≤ t.changes.vertexPositionEnd ∧
    t.changes.vertexDistanceStart ≤ s.changes.vertexDistanceStart ∧
    s.changes.vertexDistanceEnd ≤ t.changes.vertexDistanceEnd
  lg : ∃ new, t.log = new ++ s.log ∧ (new = [] → t.changes = s.changes) ∧
    ∀ e ∈ new,
      (e.isVert = true → e.index < t.nextVertexIndex ∧ e.cap = s.maxVerticesCount ∧
        t.changes.vertexPositionStart ≤ ((e.index * 3 : ℕ) : ℚ) ∧
        ((e.index * 3 : ℕ) : ℚ) ≤ t.changes.vertexPositionEnd ∧
        t.changes.vertexDistanceStart ≤ ((e.index * 1 : ℕ) : ℚ) ∧
        ((e.index * 1 : ℕ) : ℚ) ≤ t.changes.vertexDistanceEnd) ∧
      (e.isVert = false → e.index < t.nextTriangleIndex ∧ e.cap = s.maxVerticesCount ∧
        t.changes.indexStart ≤ ((e.index * 3 : ℕ) : ℚ) ∧
        ((e.index * 3 : ℕ) : ℚ) ≤ t.changes.indexEnd)

/-- How the state evolves across one whole `_addPoint` (and compositions of
them): like `Ev`, but the capacity may double (finitely many times), the
buffers may be reallocated (so the below-cursor stability is conditional on
zero padding of the entry state), the cursors may be lower than the
intra-call maximum (only entry-to-exit monotonicity remains), and the logged
events are only guaranteed to be covered by the exit change trackers. -/
structure StepEv (s t : PBD) : Prop where
  nvi : s.nextVertexIndex ≤ t.nextVertexIndex
  nti : s.nextTriangleIndex ≤ t.nextTriangleIndex
  pos : ZeroPad s → ∀ j, j < 3 * s.nextVertexIndex → t.positions.data j = s.positions.data j
  dst : ZeroPad s → ∀ j, j < s.nextVertexIndex → t.distances.data j = s.distances.data j
  idx : ZeroPad s → ∀ j, j < 3 * s.nextTriangleIndex → t.indices.data j = s.indices.data j
  sd : t.smoothingDistance = s.smoothingDistance
  rnd : t.roundness = s.roundness
  rad : t.radius = s.radius
  deb : t.debounce = s.debounce
  slice : t.roundnessSliceAlpha = s.roundnessSliceAlpha
  mavp : t.maxAddedVerticesPerPoint = s.maxAddedVerticesPerPoint
  pts : t.points = s.points
  cdb : t.currentDebounce = s.currentDebounce
  capgrow : ∃ m, t.maxVerticesCount = s.maxVerticesCount * 2 ^ m
  sizeInv : SizeInv s → SizeInv t
  zpad : ZeroPad s → ZeroPad t
  chg : t.changes.indexStart ≤ s.changes.indexStart ∧
    s.changes.indexEnd ≤ t.changes.indexEnd ∧
    t.changes.vertexPositionStart ≤ s.changes.vertexPositionStart ∧
    s.changes.vertexPositionEnd ≤ t.changes.vertexPositionEnd ∧
    t.changes.vertexDistanceStart ≤ s.changes.vertexDistanceStart ∧
    s.changes.vertexDistanceEnd ≤ t.changes.vertexDistanceEnd
  lg : ∃ new, t.log = new ++ s.log ∧ (new = [] → t.changes = s.changes) ∧
    ∀ e ∈ new,
      (e.isVert = true →
        t.changes.vertexPositionStart ≤ ((e.index * 3 : ℕ) : ℚ) ∧
        ((e.index * 3 : ℕ) : ℚ) ≤ t.changes.vertexPositionEnd ∧
        t.changes.vertexDistanceStart ≤ ((e.index * 1 : ℕ) : ℚ) ∧
        ((e.index * 1 : ℕ) : ℚ) ≤ t.changes.vertexDistanceEnd) ∧
      (e.isVert = false →
        t.changes.indexStart ≤ ((e.index * 3 : ℕ) : ℚ) ∧
        ((e.index * 3 : ℕ) : ℚ) ≤ t.changes.indexEnd)

/-- How the state evolves across one whole `addPointToPath` call: like
`StepEv`, but the change trackers are reset, the raw-point history may gain
the sample and the debounce counter may change, so only the cursor, data,
option, capacity and well-formedness facts remain. -/
structure CallEv (s t : PBD) : Prop where
  nvi : s.nextVertexIndex ≤ t.nextVertexIndex
  nti : s.nextTriangleIndex ≤ t.nextTriangleIndex
  pos : ZeroPad s → ∀ j, j < 3 * s.nextVertexIndex → t.positions.data j = s.positions.data j
  dst : ZeroPad s → ∀ j, j < s.nextVertexIndex → t.distances.data j = s.distances.data j
  idx : ZeroPad s → ∀ j, j < 3 * s.nextTriangleIndex → t.indices.data j = s.indices.data j
  sd : t.smoothingDistance = s.smoothingDistance
  rnd : t.roundness = s.roundness
  rad : t.radius = s.radius
  deb : t.debounce = s.debounce
  slice : t.roundnessSliceAlpha = s.roundnessSliceAlpha
  mavp : t.maxAddedVerticesPerPoint = s.maxAddedVerticesPerPoint
  capgrow : ∃ m, t.maxVerticesCount = s.maxVerticesCount * 2 ^ m
  sizeInv : SizeInv s → SizeInv t
  zpad : ZeroPad s → ZeroPad t
  keep0 : (s.nextVertexIndex = 0 → s.nextTriangleIndex = 0) →
    (t.nextVertexIndex = 0 → t.nextTriangleIndex = 0)

/-- Modelled from the spec's words (the C6 arc-length property): the summed
Euclidean length of a polyline — the sum of the distances between consecutive
points, the first point contributing `0`.  This is the spec-side definition,
to be compared with the running `previous_length` the source maintains. -/
def pathLen (M : RealFns) : List Vec2 → ℚ
  | [] => 0
  | [_] => 0
  | a :: b :: rest => ((b.sub a).len M) + pathLen M (b :: rest)

/-- The coupling between the running length, the ghost tessellated-point list
and the cursor: either nothing has been tessellated (and the length is `0`),
or the last tessellated point is `previousPoint` and the running length is
the summed length of the tessellated polyline. -/
def LenInv (M : RealFns) (s : PBD) : Prop :=
  (s.tess = [] ∧ s.nextVertexIndex = 0 ∧ s.previous_length = 0) ∨
  (s.tess.getLast? = some s.previousPoint ∧
   s.previous_length = pathLen M s.tess ∧ 1 ≤ s.nextVertexIndex)

/-- Cursor accounting across a block of pushes: the vertex cursor is
monotone and advances by at most `a`, and the triangle cursor advances by at
most the vertex advance plus `b` (written additively to stay in `ℕ` on the
left). -/
def Cnt (a : ℕ) (b : ℤ) (s t : PBD) : Prop :=
  s.nextVertexIndex ≤ t.nextVertexIndex ∧
  t.nextVertexIndex ≤ s.nextVertexIndex + a ∧
  (t.nextTriangleIndex : ℤ) + s.nextVertexIndex ≤
    s.nextTriangleIndex + t.nextVertexIndex + b

/-- The capacity invariant: the vertex cursor is within the vertex capacity,
the triangle cursor never exceeds the vertex cursor, the capacity never fell
below its starting value, and the buffer sizes agree with the capacity. -/
def CapInv (s : PBD) : Prop :=
  s.nextVertexIndex ≤ s.maxVerticesCount ∧
  s.nextTriangleIndex ≤ s.nextVertexIndex ∧
  verticesStartSize ≤ s.maxVerticesCount ∧
  SizeInv s

/-- The per-point headroom budget: one `_addPoint` pushes at most
`(loopIdx roundness).length + 5` vertices past the entry cursor (four quad
corners, at most one contour vertex per loop iteration, and the end centre),
so the headroom reservation `maxAddedVerticesPerPoint` must cover that
worst case and itself fit inside the starting capacity. -/
def BudgetOK (s : PBD) : Prop :=
  (((loopIdx s.roundness).length : ℚ) + 5 ≤ s.maxAddedVerticesPerPoint) ∧
  (s.maxAddedVerticesPerPoint ≤ (verticesStartSize : ℚ))

theorem fbuf_size_write (b : FloatBuf) (i : ℕ) (v : ℚ) :
    (b.write i v).size = b.size := by
  unfold FloatBuf.write; split <;> rfl

theorem fbuf_data_write_ne (b : FloatBuf) (i j : ℕ) (v : ℚ) (h : j ≠ i) :
    (b.write i v).data j = b.data j := by
  unfold FloatBuf.write; split
  · simp [h]
  · rfl

theorem fbuf_zpad_write (b : FloatBuf) (i : ℕ) (v : ℚ)
    (hz : ∀ k, b.size ≤ k → b.data k = 0) :
    ∀ k, (b.write i v).size ≤ k → (b.write i v).data k = 0 := by
  intro k hk
  rw [fbuf_size_write] at hk
  unfold FloatBuf.write
  split
  · rename_i hi
    simp only []
    split
    · omega
    · exact hz k hk
  · exact hz k hk

theorem ubuf_size_write (b : UIntBuf) (i : ℕ) (v : ℕ) :
    (b.write i v).size = b.size := by
  unfold UIntBuf.write; split <;> rfl

theorem ubuf_data_write_ne (b : UIntBuf) (i j : ℕ) (v : ℕ) (h : j ≠ i) :
    (b.write i v).data j = b.data j := by
  unfold UIntBuf.write; split
  · simp [h]
  · rfl

theorem ubuf_zpad_write (b : UIntBuf) (i : ℕ) (v : ℕ)
    (hz : ∀ k, b.size ≤ k → b.data k = 0) :
    ∀ k, (b.write i v).size ≤ k → (b.write i v).data k = 0 := by
  intro k hk
  rw [ubuf_size_write] at hk
  unfold UIntBuf.write
  split
  · rename_i hi
    simp only []
    split
    · omega
    · exact hz k hk
  · exact hz k hk

theorem ev_refl (s : PBD) : Ev s s := by
  refine ⟨le_rfl, le_rfl, fun _ _ => rfl, fun _ _ => rfl, fun _ _ => rfl,
    rfl, rfl, rfl, rfl, rfl, rfl, rfl, rfl, rfl, rfl, rfl, rfl, rfl, rfl, rfl, rfl,
    fun h => h, fun h => h, fun h => h,
    ⟨le_rfl, le_rfl, le_rfl, le_rfl, le_rfl, le_rfl⟩,
    ⟨[], rfl, fun _ => rfl, fun e he => absurd he (List.not_mem_nil e)⟩⟩

theorem ev_trans {a b c : PBD} (h1 : Ev a b) (h2 : Ev b c) : Ev a c := by
  obtain ⟨n1, hl1, he1, hb1⟩ := h1.lg
  obtain ⟨n2, hl2, he2, hb2⟩ := h2.lg
  refine ⟨h1.nvi.trans h2.nvi, h1.nti.trans h2.nti,
    ?_, ?_, ?_,
    h2.sd.trans h1.sd, h2.rnd.trans h1.rnd, h2.rad.trans h1.rad, h2.deb.trans h1.deb,
    h2.slice.trans h1.slice, h2.mavp.trans h1.mavp, h2.cap.trans h1.cap,
    h2.psize.trans h1.psize, h2.dsize.trans h1.dsize, h2.isize.trans h1.isize,
    h2.pts.trans h1.pts, h2.cdb.trans h1.cdb, h2.ppt.trans h1.ppt, h2.cpt.trans h1.cpt,
    h2.plen.trans h1.plen, h2.tss.trans h1.tss,
    fun h => h2.zpos (h1.zpos h), fun h => h2.zdst (h1.zdst h), fun h => h2.zidx (h1.zidx h),
    ?_, ?_⟩
  · intro j hj
    exact (h2.pos j (lt_of_lt_of_le hj (Nat.mul_le_mul_left 3 h1.nvi))).trans (h1.pos j hj)
  · intro j hj
    exact (h2.dst j (lt_of_lt_of_le hj h1.nvi)).trans (h1.dst j hj)
  · intro j hj
    exact (h2.idx j (lt_of_lt_of_le hj (Nat.mul_le_mul_left 3 h1.nti))).trans (h1.idx j hj)
  · obtain ⟨i1, i2, i3, i4, i5, i6⟩ := h1.chg
    obtain ⟨j1, j2, j3, j4, j5, j6⟩ := h2.chg
    exact ⟨j1.trans i1, i2.trans j2, j3.trans i3, i4.trans j4, j5.trans i5, i6.trans j6⟩
  · refine ⟨n2 ++ n1, by rw [hl2, hl1, List.append_assoc], ?_, ?_⟩
    · intro h
      have h2e : n2 = [] := by
        cases n2 with
        | nil => rfl
        | cons x xs => simp at h
      have h1e : n1 = [] := by
        cases n2 with
        | nil => simpa using h
        | cons x xs => simp at h
      exact (he2 h2e).trans (he1 h1e)
    · intro e he
      rcases List.mem_append.1 he with h | h
      · obtain ⟨hv, ht⟩ := hb2 e h
        refine ⟨fun his => ?_, fun his => ?_⟩
        · obtain ⟨q1, q2, q3, q4, q5, q6⟩ := hv his
          exact ⟨q1, q2.trans h1.cap, q3, q4, q5, q6⟩
        · obtain ⟨q1, q2, q3, q4⟩ := ht his
          exact ⟨q1, q2.trans h1.cap, q3, q4⟩
      · obtain ⟨hv, ht⟩ := hb1 e h
        obtain ⟨c1, c2, c3, c4, c5, c6⟩ := h2.chg
        refine ⟨fun his => ?_, fun his => ?_⟩
        · obtain ⟨q1, q2, q3, q4, q5, q6⟩ := hv his
          exact ⟨q1.trans_le h2.nvi, q2, c3.trans q3, q4.trans c4, c5.trans q5, q6.trans c6⟩
        · obtain ⟨q1, q2, q3, q4⟩ := ht his
          exact ⟨q1.trans_le h2.nti, q2, c1.trans q3, q4.trans c2⟩

theorem ev_pushVertexData (s : PBD) (x y z d : ℚ) : Ev s (pushVertexData s x y z d) := by
  unfold pushVertexData updateVertexData
  refine ⟨Nat.le_succ _, le_rfl, ?_, ?_, fun _ _ => rfl,
    rfl, rfl, rfl, rfl, rfl, rfl, rfl, ?_, ?_, rfl, rfl, rfl, rfl, rfl, rfl, rfl,
    ?_, ?_, fun h => h,
    ⟨le_rfl, le_rfl, min_le_left _ _, le_max_left _ _, min_le_left _ _, le_max_left _ _⟩,
    ?_⟩
  · intro j hj
    rw [fbuf_data_write_ne _ _ _ _ (by omega),
      fbuf_data_write_ne _ _ _ _ (by omega),
      fbuf_data_write_ne _ _ _ _ (by omega)]
  · intro j hj
    rw [fbuf_data_write_ne _ _ _ _ (by omega)]
  · rw [fbuf_size_write, fbuf_size_write, fbuf_size_write]
  · rw [fbuf_size_write]
  · intro h
    exact fbuf_zpad_write _ _ _ (fbuf_zpad_write _ _ _ (fbuf_zpad_write _ _ _ h))
  · intro h
    exact fbuf_zpad_write _ _ _ h
  · refine ⟨[WriteEv.vert s.nextVertexIndex x y z d s.maxVerticesCount], rfl,
      fun h => by simp at h, ?_⟩
    intro e he
    rw [List.mem_singleton] at he
    subst he
    refine ⟨fun _ => ?_, fun h => by simp [WriteEv.isVert] at h⟩
    exact ⟨Nat.lt_succ_self _, rfl, min_le_right _ _, le_max_right _ _,
      min_le_right _ _, le_max_right _ _⟩

theorem ev_pushTriangleData (s : PBD) (a b c : ℕ) : Ev s (pushTriangleData s a b c) := by
  unfold pushTriangleData updateTriangleData
  refine ⟨le_rfl, Nat.le_succ _, fun _ _ => rfl, fun _ _ => rfl, ?_,
    rfl, rfl, rfl, rfl, rfl, rfl, rfl, rfl, rfl, ?_, rfl, rfl, rfl, rfl, rfl, rfl,
    fun h => h, fun h => h, ?_,
    ⟨min_le_left _ _, le_max_left _ _, le_rfl, le_rfl, le_rfl, le_rfl⟩,
    ?_⟩
  · intro j hj
    rw [ubuf_data_write_ne _ _ _ _ (by omega),
      ubuf_data_write_ne _ _ _ _ (by omega),
      ubuf_data_write_ne _ _ _ _ (by omega)]
  · rw [ubuf_size_write, ubuf_size_write, ubuf_size_write]
  · intro h
    exact ubuf_zpad_write _ _ _ (ubuf_zpad_write _ _ _ (ubuf_zpad_write _ _ _ h))
  · refine ⟨[WriteEv.tri s.nextTriangleIndex a b c s.maxVerticesCount], rfl,
      fun h => by simp at h, ?_⟩
    intro e he
    rw [List.mem_singleton] at he
    subst he
    refine ⟨fun h => by simp [WriteEv.isVert] at h, fun _ => ?_⟩
    exact ⟨Nat.lt_succ_self _, rfl, min_le_right _ _, le_max_right _ _⟩

theorem ev_breakFold (step : ℕ → PBD → PBD) (cond : ℕ → Bool) (brk : ℕ → PBD → PBD)
    (hstep : ∀ i u, Ev u (step i u)) (hbrk : ∀ i u, Ev u (brk i u)) :
    ∀ (l : List ℕ) (s : PBD) (b : Bool), Ev s (breakFold step cond brk l (s, b)).1
  | [], s, b => ev_refl s
  | i :: is, s, b => by
    unfold breakFold
    cases b with
    | true => exact ev_refl s
    | false =>
      simp only [Bool.false_eq_true, if_false]
      by_cases hc : cond i
      · simp only [hc, if_true]
        exact hbrk i s
      · simp only [hc, if_false]
        exact ev_trans (hstep i s) (ev_breakFold step cond brk hstep hbrk is (step i s) false)

theorem ev_foldl (f : PBD → ℕ → PBD) (hf : ∀ u i, Ev u (f u i)) :
    ∀ (l : List ℕ) (s : PBD), Ev s (l.foldl f s)
  | [], s => ev_refl s
  | i :: is, s => ev_trans (hf s i) (ev_foldl f hf is (f s i))

theorem StepEv.of_ev {s t : PBD} (h : Ev s t) : StepEv s t := by
  obtain ⟨new, hl, he, hb⟩ := h.lg
  refine ⟨h.nvi, h.nti, fun _ => h.pos, fun _ => h.dst, fun _ => h.idx,
    h.sd, h.rnd, h.rad, h.deb, h.slice, h.mavp, h.pts, h.cdb,
    ⟨0, by rw [h.cap, pow_zero, mul_one]⟩, ?_, ?_, h.chg,
    ⟨new, hl, he, ?_⟩⟩
  · intro ⟨a1, a2, a3⟩
    exact ⟨h.psize.trans a1 |>.trans (by rw [h.cap]),
      h.dsize.trans a2 |>.trans (by rw [h.cap]),
      h.isize.trans a3 |>.trans (by rw [h.cap])⟩
  · intro ⟨a1, a2, a3⟩
    exact ⟨fun j hj => h.zpos a1 j hj, fun j hj => h.zdst a2 j hj, fun j hj => h.zidx a3 j hj⟩
  · intro e he
    obtain ⟨hv, ht⟩ := hb e he
    refine ⟨fun his => ?_, fun his => ?_⟩
    · obtain ⟨_, _, q3, q4, q5, q6⟩ := hv his
      exact ⟨q3, q4, q5, q6⟩
    · obtain ⟨_, _, q3, q4⟩ := ht his
      exact ⟨q3, q4⟩

theorem stepEv_trans {a b c : PBD} (h1 : StepEv a b) (h2 : StepEv b c) : StepEv a c := by
  obtain ⟨n1, hl1, he1, hb1⟩ := h1.lg
  obtain ⟨n2, hl2, he2, hb2⟩ := h2.lg
  obtain ⟨m1, hm1⟩ := h1.capgrow
  obtain ⟨m2, hm2⟩ := h2.capgrow
  obtain ⟨c1, c2, c3, c4, c5, c6⟩ := h1.chg
  obtain ⟨d1, d2, d3, d4, d5, d6⟩ := h2.chg
  refine ⟨h1.nvi.trans h2.nvi, h1.nti.trans h2.nti, ?_, ?_, ?_,
    h2.sd.trans h1.sd, h2.rnd.trans h1.rnd, h2.rad.trans h1.rad, h2.deb.trans h1.deb,
    h2.slice.trans h1.slice, h2.mavp.trans h1.mavp,
    h2.pts.trans h1.pts, h2.cdb.trans h1.cdb,
    ⟨m1 + m2, by rw [hm2, hm1, pow_add, mul_assoc]⟩,
    fun hs => h2.sizeInv (h1.sizeInv hs), fun hz => h2.zpad (h1.zpad hz),
    ⟨d1.trans c1, c2.trans d2, d3.trans c3, c4.trans d4, d5.trans c5, c6.trans d6⟩,
    ?_⟩
  · intro hz j hj
    exact (h2.pos (h1.zpad hz) j (lt_of_lt_of_le hj (Nat.mul_le_mul_left 3 h1.nvi))).trans
      (h1.pos hz j hj)
  · intro hz j hj
    exact (h2.dst (h1.zpad hz) j (lt_of_lt_of_le hj h1.nvi)).trans (h1.dst hz j hj)
  · intro hz j hj
    exact (h2.idx (h1.zpad hz) j (lt_of_lt_of_le hj (Nat.mul_le_mul_left 3 h1.nti))).trans
      (h1.idx hz j hj)
  · refine ⟨n2 ++ n1, by rw [hl2, hl1, List.append_assoc], ?_, ?_⟩
    · intro h
      have h2e : n2 = [] := by
        cases n2 with
        | nil => rfl
        | cons x xs => simp at h
      have h1e : n1 = [] := by
        cases n2 with
        | nil => simpa using h
        | cons x xs => simp at h
      exact (he2 h2e).trans (he1 h1e)
    · intro e he
      rcases List.mem_append.1 he with h | h
      · exact hb2 e h
      · obtain ⟨hv, ht⟩ := hb1 e h
        refine ⟨fun his => ?_, fun his => ?_⟩
        · obtain ⟨q3, q4, q5, q6⟩ := hv his
          exact ⟨d3.trans q3, q4.trans d4, d5.trans q5, q6.trans d6⟩
        · obtain ⟨q3, q4⟩ := ht his
          exact ⟨d1.trans q3, q4.trans d2⟩

theorem stepEv_expand (s : PBD) (hsz : SizeInv s) : StepEv s (expandBuffers s) := by
  obtain ⟨a1, a2, a3⟩ := hsz
  unfold expandBuffers verticesExpansionRate
  refine ⟨le_rfl, le_rfl, ?_, ?_, ?_, rfl, rfl, rfl, rfl, rfl, rfl, rfl, rfl,
    ⟨1, by rw [pow_one]⟩, fun _ => ⟨rfl, rfl, rfl⟩, ?_,
    ⟨le_rfl, le_rfl, le_rfl, le_rfl, le_rfl, le_rfl⟩,
    ⟨[], rfl, fun _ => rfl, fun e he => absurd he (List.not_mem_nil e)⟩⟩
  · intro hz j hj
    show (if j < s.positions.size then s.positions.data j else 0) = s.positions.data j
    split
    · rfl
    · exact (hz.1 j (by omega)).symm
  · intro hz j hj
    show (if j < s.distances.size then s.distances.data j else 0) = s.distances.data j
    split
    · rfl
    · exact (hz.2.1 j (by omega)).symm
  · intro hz j hj
    show (if j < s.indices.size then s.indices.data j else 0) = s.indices.data j
    split
    · rfl
    · exact (hz.2.2 j (by omega)).symm
  · intro _
    refine ⟨fun j hj => ?_, fun j hj => ?_, fun j hj => ?_⟩
    · have hj2 : s.maxVerticesCount * 2 * 3 ≤ j := hj
      show (if j < s.positions.size then s.positions.data j else 0) = 0
      rw [if_neg (by omega)]
    · have hj2 : s.maxVerticesCount * 2 * 1 ≤ j := hj
      show (if j < s.distances.size then s.distances.data j else 0) = 0
      rw [if_neg (by omega)]
    · have hj2 : s.maxVerticesCount * 2 * 3 * 2 ≤ j := hj
      show (if j < s.indices.size then s.indices.data j else 0) = 0
      rw [if_neg (by omega)]

theorem stepEv_start_final {u X : PBD} (hX : Ev u X) (h0 : u.nextVertexIndex = 0)
    (ht : u.nextTriangleIndex = 0) :
    StepEv u { X with nextTriangleIndex := 0, nextVertexIndex := 1 } := by
  obtain ⟨new, hl, he, hb⟩ := hX.lg
  refine ⟨by omega, by omega,
    fun _ j hj => absurd hj (by omega), fun _ j hj => absurd hj (by omega),
    fun _ j hj => absurd hj (by omega),
    hX.sd, hX.rnd, hX.rad, hX.deb, hX.slice, hX.mavp, hX.pts, hX.cdb,
    ⟨0, by rw [hX.cap, pow_zero, mul_one]⟩, ?_, ?_, hX.chg, ⟨new, hl, he, ?_⟩⟩
  · intro ⟨a1, a2, a3⟩
    refine ⟨?_, ?_, ?_⟩
    · show X.positions.size = X.maxVerticesCount * 3
      rw [hX.psize, a1, hX.cap]
    · show X.distances.size = X.maxVerticesCount * 1
      rw [hX.dsize, a2, hX.cap]
    · show X.indices.size = X.maxVerticesCount * 3 * 2
      rw [hX.isize, a3, hX.cap]
  · intro hz
    exact ⟨fun j hj => hX.zpos hz.1 j hj, fun j hj => hX.zdst hz.2.1 j hj,
      fun j hj => hX.zidx hz.2.2 j hj⟩
  · intro e he
    obtain ⟨hv, htr⟩ := hb e he
    refine ⟨fun his => ?_, fun his => ?_⟩
    · obtain ⟨_, _, q3, q4, q5, q6⟩ := hv his
      exact ⟨q3, q4, q5, q6⟩
    · obtain ⟨_, _, q3, q4⟩ := htr his
      exact ⟨q3, q4⟩

theorem stepEv_segment_final {u X : PBD} {nst c : ℕ} {L : ℚ}
    {v1 v2 v3 q1 q2 q3 q4 : Vec2} {i2 i3 : ℕ}
    (hX : Ev u X) (hc : u.nextVertexIndex ≤ c + 1) (ht : u.nextTriangleIndex ≤ nst) :
    StepEv u { X with
      nextTriangleIndex := nst
      nextVertexIndex := c + 1
      previous_length := L
      previous_translation := v1
      previous_thicknessDirection := v2
      previous_thicknessDirectionScaled := v3
      previous_p1 := q1
      previous_p2 := q2
      previous_p3 := q3
      previous_p4 := q4
      previous_p2Index := i2
      previous_p3Index := i3 } := by
  obtain ⟨new, hl, he, hb⟩ := hX.lg
  refine ⟨hc, ht, fun _ => hX.pos, fun _ => hX.dst, fun _ => hX.idx,
    hX.sd, hX.rnd, hX.rad, hX.deb, hX.slice, hX.mavp, hX.pts, hX.cdb,
    ⟨0, by rw [hX.cap, pow_zero, mul_one]⟩, ?_, ?_, hX.chg, ⟨new, hl, he, ?_⟩⟩
  · intro ⟨a1, a2, a3⟩
    refine ⟨?_, ?_, ?_⟩
    · show X.positions.size = X.maxVerticesCount * 3
      rw [hX.psize, a1, hX.cap]
    · show X.distances.size = X.maxVerticesCount * 1
      rw [hX.dsize, a2, hX.cap]
    · show X.indices.size = X.maxVerticesCount * 3 * 2
      rw [hX.isize, a3, hX.cap]
  · intro hz
    exact ⟨fun j hj => hX.zpos hz.1 j hj, fun j hj => hX.zdst hz.2.1 j hj,
      fun j hj => hX.zidx hz.2.2 j hj⟩
  · intro e he
    obtain ⟨hv, htr⟩ := hb e he
    refine ⟨fun his => ?_, fun his => ?_⟩
    · obtain ⟨_, _, b3, b4, b5, b6⟩ := hv his
      exact ⟨b3, b4, b5, b6⟩
    · obtain ⟨_, _, b3, b4⟩ := htr his
      exact ⟨b3, b4⟩

theorem ev_jointLink (M : RealFns) (r slice : ℚ) (prevPt tds ptds : Vec2) (prevLen : ℚ)
    (previousCenterIndex p1Index p4Index prevP2Index prevP3Index : ℕ)
    (dot1 dot2 : ℚ) (s : PBD) :
    Ev s (jointLink M r slice prevPt tds ptds prevLen
      previousCenterIndex p1Index p4Index prevP2Index prevP3Index dot1 dot2 s) := by
  unfold jointLink
  split
  · split
    · refine ev_breakFold _ _ _ ?_ ?_ _ _ _
      · intro i v
        simp only []
        split <;>
          exact ev_trans (ev_pushVertexData _ _ _ _ _) (ev_pushTriangleData _ _ _ _)
      · intro i v
        exact ev_pushTriangleData _ _ _ _
    · exact ev_refl _
  · split
    · refine ev_breakFold _ _ _ ?_ ?_ _ _ _
      · intro i v
        exact ev_trans (ev_pushVertexData _ _ _ _ _) (ev_pushTriangleData _ _ _ _)
      · intro i v
        exact ev_pushTriangleData _ _ _ _
    · refine ev_breakFold _ _ _ ?_ ?_ _ _ _
      · intro i v
        simp only []
        split <;>
          exact ev_trans (ev_pushVertexData _ _ _ _ _) (ev_pushTriangleData _ _ _ _)
      · intro i v
        try simp only []
        split <;> exact ev_pushTriangleData _ _ _ _

theorem stepEv_startPath (M : RealFns) (u : PBD)
    (h0 : u.nextVertexIndex = 0) (ht : u.nextTriangleIndex = 0) :
    StepEv u (startPath M u) ∧ (startPath M u).nextVertexIndex = 1 := by
  unfold startPath
  refine ⟨stepEv_start_final ?_ h0 ht, rfl⟩
  refine ev_trans (ev_pushVertexData _ _ _ _ _) (ev_foldl _ ?_ _ _)
  intro v i
  simp only []
  split
  · exact ev_trans (ev_pushVertexData _ _ _ _ _) (ev_pushTriangleData _ _ _ _)
  · exact ev_trans (ev_pushVertexData _ _ _ _ _) (ev_pushTriangleData _ _ _ _)

theorem stepEv_firstSegment (M : RealFns) (u : PBD) :
    StepEv u (firstSegment M u) ∧ 1 ≤ (firstSegment M u).nextVertexIndex := by
  unfold firstSegment
  refine ⟨stepEv_segment_final ?hX ?hc ?ht, ?one⟩
  case hX =>
    refine ev_trans ?_ (ev_breakFold _ _ _ ?_ ?_ _ _ _)
    · refine ev_trans ?_ (ev_pushVertexData _ _ _ _ _)
      refine ev_trans ?_ (ev_breakFold _ _ _ ?_ ?_ _ _ _)
      · refine ev_trans ?_ (ev_pushTriangleData _ _ _ _)
        refine ev_trans ?_ (ev_pushTriangleData _ _ _ _)
        refine ev_trans ?_ (ev_pushVertexData _ _ _ _ _)
        refine ev_trans ?_ (ev_pushVertexData _ _ _ _ _)
        refine ev_trans ?_ (ev_pushVertexData _ _ _ _ _)
        exact ev_pushVertexData _ _ _ _ _
      · intro i v
        exact ev_trans (ev_pushVertexData _ _ _ _ _) (ev_pushTriangleData _ _ _ _)
      · intro i v
        exact ev_pushTriangleData _ _ _ _
    · intro i v
      simp only []
      split
      · exact ev_trans (ev_pushVertexData _ _ _ _ _) (ev_pushTriangleData _ _ _ _)
      · exact ev_trans (ev_pushVertexData _ _ _ _ _) (ev_pushTriangleData _ _ _ _)
    · intro i v
      exact ev_pushTriangleData _ _ _ _
  case hc =>
    refine Nat.le_succ_of_le (Ev.nvi ?_)
    refine ev_trans ?_ (ev_breakFold _ _ _ ?_ ?_ _ _ _)
    · refine ev_trans ?_ (ev_pushTriangleData _ _ _ _)
      refine ev_trans ?_ (ev_pushTriangleData _ _ _ _)
      refine ev_trans ?_ (ev_pushVertexData _ _ _ _ _)
      refine ev_trans ?_ (ev_pushVertexData _ _ _ _ _)
      refine ev_trans ?_ (ev_pushVertexData _ _ _ _ _)
      exact ev_pushVertexData _ _ _ _ _
    · intro i v
      exact ev_trans (ev_pushVertexData _ _ _ _ _) (ev_pushTriangleData _ _ _ _)
    · intro i v
      exact ev_pushTriangleData _ _ _ _
  case ht =>
    split
    · refine Ev.nti ?_
      refine ev_trans ?_ (ev_breakFold _ _ _ ?_ ?_ _ _ _)
      · refine ev_trans ?_ (ev_pushTriangleData _ _ _ _)
        refine ev_trans ?_ (ev_pushTriangleData _ _ _ _)
        refine ev_trans ?_ (ev_pushVertexData _ _ _ _ _)
        refine ev_trans ?_ (ev_pushVertexData _ _ _ _ _)
        refine ev_trans ?_ (ev_pushVertexData _ _ _ _ _)
        exact ev_pushVertexData _ _ _ _ _
      · intro i v
        exact ev_trans (ev_pushVertexData _ _ _ _ _) (ev_pushTriangleData _ _ _ _)
      · intro i v
        exact ev_pushTriangleData _ _ _ _
    · refine Ev.nti ?_
      refine ev_trans ?_ (ev_pushTriangleData _ _ _ _)
      refine ev_trans ?_ (ev_pushTriangleData _ _ _ _)
      refine ev_trans ?_ (ev_pushVertexData _ _ _ _ _)
      refine ev_trans ?_ (ev_pushVertexData _ _ _ _ _)
      refine ev_trans ?_ (ev_pushVertexData _ _ _ _ _)
      exact ev_pushVertexData _ _ _ _ _
  case one =>
    exact Nat.succ_le_succ (Nat.zero_le _)

theorem stepEv_addSegment (M : RealFns) (u : PBD) :
    StepEv u (addSegment M u) ∧ 1 ≤ (addSegment M u).nextVertexIndex := by
  unfold addSegment
  refine ⟨stepEv_segment_final ?hX ?hc ?ht, ?one⟩
  case hX =>
    refine ev_trans ?_ (ev_breakFold _ _ _ ?_ ?_ _ _ _)
    · refine ev_trans ?_ (ev_pushVertexData _ _ _ _ _)
      refine ev_trans ?_ (ev_jointLink _ _ _ _ _ _ _ _ _ _ _ _ _ _ _)
      refine ev_trans ?_ (ev_pushTriangleData _ _ _ _)
      refine ev_trans ?_ (ev_pushTriangleData _ _ _ _)
      refine ev_trans ?_ (ev_pushVertexData _ _ _ _ _)
      refine ev_trans ?_ (ev_pushVertexData _ _ _ _ _)
      refine ev_trans ?_ (ev_pushVertexData _ _ _ _ _)
      exact ev_pushVertexData _ _ _ _ _
    · intro i v
      simp only []
      split
      · exact ev_trans (ev_pushVertexData _ _ _ _ _) (ev_pushTriangleData _ _ _ _)
      · exact ev_trans (ev_pushVertexData _ _ _ _ _) (ev_pushTriangleData _ _ _ _)
    · intro i v
      exact ev_pushTriangleData _ _ _ _
  case hc =>
    refine Nat.le_succ_of_le (Ev.nvi ?_)
    refine ev_trans ?_ (ev_jointLink _ _ _ _ _ _ _ _ _ _ _ _ _ _ _)
    refine ev_trans ?_ (ev_pushTriangleData _ _ _ _)
    refine ev_trans ?_ (ev_pushTriangleData _ _ _ _)
    refine ev_trans ?_ (ev_pushVertexData _ _ _ _ _)
    refine ev_trans ?_ (ev_pushVertexData _ _ _ _ _)
    refine ev_trans ?_ (ev_pushVertexData _ _ _ _ _)
    exact ev_pushVertexData _ _ _ _ _
  case ht =>
    refine Ev.nti ?_
    refine ev_trans ?_ (ev_jointLink _ _ _ _ _ _ _ _ _ _ _ _ _ _ _)
    refine ev_trans ?_ (ev_pushTriangleData _ _ _ _)
    refine ev_trans ?_ (ev_pushTriangleData _ _ _ _)
    refine ev_trans ?_ (ev_pushVertexData _ _ _ _ _)
    refine ev_trans ?_ (ev_pushVertexData _ _ _ _ _)
    refine ev_trans ?_ (ev_pushVertexData _ _ _ _ _)
    exact ev_pushVertexData _ _ _ _ _
  case one =>
    exact Nat.succ_le_succ (Nat.zero_le _)

theorem stepEv_refl (s : PBD) : StepEv s s := StepEv.of_ev (ev_refl s)

theorem stepEv_pp_tess {s t : PBD} (h : StepEv s t) (p : Vec2) (l : List Vec2) :
    StepEv s { t with previousPoint := p, tess := l } :=
  ⟨h.nvi, h.nti, h.pos, h.dst, h.idx, h.sd, h.rnd, h.rad, h.deb, h.slice, h.mavp,
    h.pts, h.cdb, h.capgrow, h.sizeInv, h.zpad, h.chg, h.lg⟩

theorem stepEv_set_cpt (s : PBD) (p : Vec2) : StepEv s { s with currentPoint := p } :=
  ⟨le_rfl, le_rfl, fun _ _ _ => rfl, fun _ _ _ => rfl, fun _ _ _ => rfl,
    rfl, rfl, rfl, rfl, rfl, rfl, rfl, rfl,
    ⟨0, by rw [pow_zero, mul_one]⟩, fun h => h, fun h => h,
    ⟨le_rfl, le_rfl, le_rfl, le_rfl, le_rfl, le_rfl⟩,
    ⟨[], rfl, fun _ => rfl, fun e he => absurd he (List.not_mem_nil e)⟩⟩

theorem stepEv_tessellate (M : RealFns) (u : PBD)
    (h0 : u.nextVertexIndex = 0 → u.nextTriangleIndex = 0) :
    StepEv u (tessellate M u) ∧ 1 ≤ (tessellate M u).nextVertexIndex := by
  unfold tessellate
  split
  · rename_i h
    obtain ⟨a, b⟩ := stepEv_startPath M u h (h0 h)
    exact ⟨a, le_of_eq b.symm⟩
  · split
    · exact stepEv_firstSegment M u
    · exact stepEv_addSegment M u

theorem stepEv_addPoint (M : RealFns) (s : PBD) (x y : ℚ)
    (h0 : s.nextVertexIndex = 0 → s.nextTriangleIndex = 0) (hsz : SizeInv s) :
    StepEv s (addPoint M s x y) ∧ 1 ≤ (addPoint M s x y).nextVertexIndex := by
  unfold addPoint
  split
  · have h2 : StepEv s { expandBuffers s with currentPoint := (⟨x, y⟩ : Vec2) } :=
      stepEv_trans (stepEv_expand s hsz) (stepEv_set_cpt _ _)
    have h0' : ({ expandBuffers s with currentPoint := (⟨x, y⟩ : Vec2) }).nextVertexIndex = 0 →
        ({ expandBuffers s with currentPoint := (⟨x, y⟩ : Vec2) }).nextTriangleIndex = 0 := h0
    obtain ⟨h3, h4⟩ := stepEv_tessellate M _ h0'
    exact ⟨stepEv_pp_tess (stepEv_trans h2 h3) _ _, h4⟩
  · have h2 := stepEv_set_cpt s ⟨x, y⟩
    have h0' : ({ s with currentPoint := (⟨x, y⟩ : Vec2) }).nextVertexIndex = 0 →
        ({ s with currentPoint := (⟨x, y⟩ : Vec2) }).nextTriangleIndex = 0 := h0
    obtain ⟨h3, h4⟩ := stepEv_tessellate M _ h0'
    exact ⟨stepEv_pp_tess (stepEv_trans h2 h3) _ _, h4⟩

theorem stepEv_addMidPoint (M : RealFns) (s : PBD) (x y : ℚ)
    (h0 : s.nextVertexIndex = 0 → s.nextTriangleIndex = 0) (hsz : SizeInv s) :
    StepEv s (addMidPoint M s x y) ∧ 1 ≤ (addMidPoint M s x y).nextVertexIndex := by
  unfold addMidPoint
  exact stepEv_addPoint M s _ _ h0 hsz

theorem stepEv_foldl_addPoint (M : RealFns) (a b : ℕ → ℚ) :
    ∀ (l : List ℕ) (s : PBD),
      (s.nextVertexIndex = 0 → s.nextTriangleIndex = 0) → SizeInv s →
      StepEv s (l.foldl (fun u i => addPoint M u (a i) (b i)) s) ∧
      (l.foldl (fun u i => addPoint M u (a i) (b i)) s = s ∨
        1 ≤ (l.foldl (fun u i => addPoint M u (a i) (b i)) s).nextVertexIndex)
  | [], s, _, _ => ⟨stepEv_refl s, Or.inl rfl⟩
  | i :: is, s, h0, hsz => by
    obtain ⟨a1, b1⟩ := stepEv_addPoint M s (a i) (b i) h0 hsz
    obtain ⟨a2, b2⟩ := stepEv_foldl_addPoint M a b is (addPoint M s (a i) (b i))
      (fun h => absurd b1 (by omega)) (a1.sizeInv hsz)
    refine ⟨stepEv_trans a1 a2, Or.inr ?_⟩
    rcases b2 with h | h
    · rw [List.foldl_cons, h]
      exact b1
    · exact h

theorem stepEv_addPointsSmoothly (M : RealFns) (s : PBD) (x y : ℚ)
    (h0 : s.nextVertexIndex = 0 → s.nextTriangleIndex = 0) (hsz : SizeInv s) :
    StepEv s (addPointsSmoothly M s x y) ∧
    1 ≤ (addPointsSmoothly M s x y).nextVertexIndex := by
  unfold addPointsSmoothly
  simp only []
  split
  · rename_i hsteps
    obtain ⟨a1, b1⟩ := stepEv_foldl_addPoint M _ _ _ s h0 hsz
    have h0b : ∀ u : PBD, u = s ∨ 1 ≤ u.nextVertexIndex →
        (u.nextVertexIndex = 0 → u.nextTriangleIndex = 0) := by
      intro u hu
      rcases hu with h | h
      · rw [h]; exact h0
      · intro hz; omega
    obtain ⟨a2, b2⟩ := stepEv_addPoint M _ _ _ (h0b _ b1) (a1.sizeInv hsz)
    exact ⟨stepEv_trans a1 a2, b2⟩
  · exact stepEv_addPoint M s _ _ h0 hsz

theorem callEv_refl (s : PBD) : CallEv s s :=
  ⟨le_rfl, le_rfl, fun _ _ _ => rfl, fun _ _ _ => rfl, fun _ _ _ => rfl,
    rfl, rfl, rfl, rfl, rfl, rfl, ⟨0, by rw [pow_zero, mul_one]⟩,
    fun h => h, fun h => h, fun h => h⟩

theorem callEv_trans {a b c : PBD} (h1 : CallEv a b) (h2 : CallEv b c) : CallEv a c := by
  obtain ⟨m1, hm1⟩ := h1.capgrow
  obtain ⟨m2, hm2⟩ := h2.capgrow
  refine ⟨h1.nvi.trans h2.nvi, h1.nti.trans h2.nti, ?_, ?_, ?_,
    h2.sd.trans h1.sd, h2.rnd.trans h1.rnd, h2.rad.trans h1.rad, h2.deb.trans h1.deb,
    h2.slice.trans h1.slice, h2.mavp.trans h1.mavp,
    ⟨m1 + m2, by rw [hm2, hm1, pow_add, mul_assoc]⟩,
    fun hs => h2.sizeInv (h1.sizeInv hs), fun hz => h2.zpad (h1.zpad hz),
    fun h => h2.keep0 (h1.keep0 h)⟩
  · intro hz j hj
    exact (h2.pos (h1.zpad hz) j (lt_of_lt_of_le hj (Nat.mul_le_mul_left 3 h1.nvi))).trans
      (h1.pos hz j hj)
  · intro hz j hj
    exact (h2.dst (h1.zpad hz) j (lt_of_lt_of_le hj h1.nvi)).trans (h1.dst hz j hj)
  · intro hz j hj
    exact (h2.idx (h1.zpad hz) j (lt_of_lt_of_le hj (Nat.mul_le_mul_left 3 h1.nti))).trans
      (h1.idx hz j hj)

theorem callEv_of_stepEv {s t : PBD} (h : StepEv s t) (h1 : 1 ≤ t.nextVertexIndex) :
    CallEv s t :=
  ⟨h.nvi, h.nti, h.pos, h.dst, h.idx, h.sd, h.rnd, h.rad, h.deb, h.slice, h.mavp,
    h.capgrow, h.sizeInv, h.zpad, fun _ hz => absurd h1 (by omega)⟩

theorem callEv_addPointToPath (M : RealFns) (x y : ℚ) (s : PBD)
    (h0 : s.nextVertexIndex = 0 → s.nextTriangleIndex = 0) (hsz : SizeInv s) :
    CallEv s (addPointToPath M x y s) := by
  unfold addPointToPath
  simp only []
  set s0 : PBD := { s with changes := ⟨maxValue, 0, maxValue, 0, maxValue, 0⟩ } with hs0
  split
  · -- first point: _addPoint then history push
    obtain ⟨h, h1⟩ := stepEv_addPoint M s0 x y h0 hsz
    refine ⟨h.nvi, h.nti, h.pos, h.dst, h.idx, h.sd, h.rnd, h.rad, h.deb, h.slice, h.mavp,
      h.capgrow, h.sizeInv, h.zpad, fun _ hz => ?_⟩
    simp only [] at hz
    omega
  · split
    · set s1 : PBD := { s0 with currentDebounce := jsMod (s0.currentDebounce + 1) s0.debounce }
        with hs1
      split
      · -- debounce rejection: early return
        exact ⟨le_rfl, le_rfl, fun _ _ _ => rfl, fun _ _ _ => rfl, fun _ _ _ => rfl,
          rfl, rfl, rfl, rfl, rfl, rfl, ⟨0, by rw [pow_zero, mul_one]⟩,
          fun h => h, fun h => h, fun h => h⟩
      · set s2 : PBD := { s1 with currentPoint := (Vec2.mk x y).sub s1.previousPoint } with hs2
        split
        · split
          · -- midpoint fallback
            obtain ⟨h, h1⟩ := stepEv_addMidPoint M s2 x y h0 hsz
            refine ⟨h.nvi, h.nti, h.pos, h.dst, h.idx, h.sd, h.rnd, h.rad, h.deb,
              h.slice, h.mavp, h.capgrow, h.sizeInv, h.zpad, fun _ hz => ?_⟩
            simp only [] at hz
            omega
          · -- curve smoothing
            obtain ⟨h, h1⟩ := stepEv_addPointsSmoothly M s2 x y h0 hsz
            refine ⟨h.nvi, h.nti, h.pos, h.dst, h.idx, h.sd, h.rnd, h.rad, h.deb,
              h.slice, h.mavp, h.capgrow, h.sizeInv, h.zpad, fun _ hz => ?_⟩
            simp only [] at hz
            omega
        · -- below the minimum step: only the history push
          exact ⟨le_rfl, le_rfl, fun _ _ _ => rfl, fun _ _ _ => rfl, fun _ _ _ => rfl,
            rfl, rfl, rfl, rfl, rfl, rfl, ⟨0, by rw [pow_zero, mul_one]⟩,
            fun h => h, fun h => h, fun h => h⟩
    · -- identical sample: only the history push
      exact ⟨le_rfl, le_rfl, fun _ _ _ => rfl, fun _ _ _ => rfl, fun _ _ _ => rfl,
        rfl, rfl, rfl, rfl, rfl, rfl, ⟨0, by rw [pow_zero, mul_one]⟩,
        fun h => h, fun h => h, fun h => h⟩

theorem pathLen_append (M : RealFns) :
    ∀ (l : List Vec2) (q p : Vec2), l.getLast? = some q →
      pathLen M (l ++ [p]) = pathLen M l + ((p.sub q).len M)
  | [], q, p, h => by simp at h
  | [a], q, p, h => by
    have ha : a = q := by simpa using h
    subst ha
    show ((p.sub a).len M) + 0 = 0 + ((p.sub a).len M)
    rw [add_zero, zero_add]
  | a :: b :: rest, q, p, h => by
    have h' : (b :: rest).getLast? = some q := by
      rwa [List.getLast?_cons_cons] at h
    have ih := pathLen_append M (b :: rest) q p h'
    show ((b.sub a).len M) + pathLen M ((b :: rest) ++ [p]) =
      (((b.sub a).len M) + pathLen M (b :: rest)) + ((p.sub q).len M)
    rw [ih, add_assoc]

theorem start_final_len {u X : PBD} (hX : Ev u X) :
    ({ X with nextTriangleIndex := 0, nextVertexIndex := 1 } : PBD).previous_length =
      u.previous_length ∧
    ({ X with nextTriangleIndex := 0, nextVertexIndex := 1 } : PBD).tess = u.tess ∧
    ({ X with nextTriangleIndex := 0, nextVertexIndex := 1 } : PBD).nextVertexIndex = 1 :=
  ⟨hX.plen, hX.tss, rfl⟩

theorem seg_final_tess {u X : PBD} {nst c : ℕ} {L : ℚ}
    {v1 v2 v3 q1 q2 q3 q4 : Vec2} {i2 i3 : ℕ} (hX : Ev u X) :
    ({ X with
      nextTriangleIndex := nst
      nextVertexIndex := c + 1
      previous_length := L
      previous_translation := v1
      previous_thicknessDirection := v2
      previous_thicknessDirectionScaled := v3
      previous_p1 := q1
      previous_p2 := q2
      previous_p3 := q3
      previous_p4 := q4
      previous_p2Index := i2
      previous_p3Index := i3 } : PBD).tess = u.tess := hX.tss

theorem startPath_len (M : RealFns) (u : PBD) :
    (startPath M u).previous_length = u.previous_length ∧
    (startPath M u).tess = u.tess ∧
    (startPath M u).nextVertexIndex = 1 := by
  unfold startPath
  refine start_final_len ?_
  refine ev_trans (ev_pushVertexData _ _ _ _ _) (ev_foldl _ ?_ _ _)
  intro v i
  simp only []
  split
  · exact ev_trans (ev_pushVertexData _ _ _ _ _) (ev_pushTriangleData _ _ _ _)
  · exact ev_trans (ev_pushVertexData _ _ _ _ _) (ev_pushTriangleData _ _ _ _)

theorem firstSegment_len (M : RealFns) (u : PBD) :
    (firstSegment M u).previous_length =
      u.previous_length + ((u.currentPoint.sub u.previousPoint).len M) ∧
    (firstSegment M u).tess = u.tess ∧
    1 ≤ (firstSegment M u).nextVertexIndex := by
  refine ⟨rfl, ?_, Nat.succ_le_succ (Nat.zero_le _)⟩
  unfold firstSegment
  refine seg_final_tess ?_
  refine ev_trans ?_ (ev_breakFold _ _ _ ?_ ?_ _ _ _)
  · refine ev_trans ?_ (ev_pushVertexData _ _ _ _ _)
    refine ev_trans ?_ (ev_breakFold _ _ _ ?_ ?_ _ _ _)
    · refine ev_trans ?_ (ev_pushTriangleData _ _ _ _)
      refine ev_trans ?_ (ev_pushTriangleData _ _ _ _)
      refine ev_trans ?_ (ev_pushVertexData _ _ _ _ _)
      refine ev_trans ?_ (ev_pushVertexData _ _ _ _ _)
      refine ev_trans ?_ (ev_pushVertexData _ _ _ _ _)
      exact ev_pushVertexData _ _ _ _ _
    · intro i v
      exact ev_trans (ev_pushVertexData _ _ _ _ _) (ev_pushTriangleData _ _ _ _)
    · intro i v
      exact ev_pushTriangleData _ _ _ _
  · intro i v
    simp only []
    split
    · exact ev_trans (ev_pushVertexData _ _ _ _ _) (ev_pushTriangleData _ _ _ _)
    · exact ev_trans (ev_pushVertexData _ _ _ _ _) (ev_pushTriangleData _ _ _ _)
  · intro i v
    exact ev_pushTriangleData _ _ _ _

theorem addSegment_len (M : RealFns) (u : PBD) :
    (addSegment M u).previous_length =
      u.previous_length + ((u.currentPoint.sub u.previousPoint).len M) ∧
    (addSegment M u).tess = u.tess ∧
    1 ≤ (addSegment M u).nextVertexIndex := by
  refine ⟨rfl, ?_, Nat.succ_le_succ (Nat.zero_le _)⟩
  unfold addSegment
  refine seg_final_tess ?_
  refine ev_trans ?_ (ev_breakFold _ _ _ ?_ ?_ _ _ _)
  · refine ev_trans ?_ (ev_pushVertexData _ _ _ _ _)
    refine ev_trans ?_ (ev_jointLink _ _ _ _ _ _ _ _ _ _ _ _ _ _ _)
    refine ev_trans ?_ (ev_pushTriangleData _ _ _ _)
    refine ev_trans ?_ (ev_pushTriangleData _ _ _ _)
    refine ev_trans ?_ (ev_pushVertexData _ _ _ _ _)
    refine ev_trans ?_ (ev_pushVertexData _ _ _ _ _)
    refine ev_trans ?_ (ev_pushVertexData _ _ _ _ _)
    exact ev_pushVertexData _ _ _ _ _
  · intro i v
    simp only []
    split
    · exact ev_trans (ev_pushVertexData _ _ _ _ _) (ev_pushTriangleData _ _ _ _)
    · exact ev_trans (ev_pushVertexData _ _ _ _ _) (ev_pushTriangleData _ _ _ _)
  · intro i v
    exact ev_pushTriangleData _ _ _ _

theorem tessellate_len (M : RealFns) (u : PBD) :
    (tessellate M u).tess = u.tess ∧
    1 ≤ (tessellate M u).nextVertexIndex ∧
    ((u.nextVertexIndex = 0 ∧ (tessellate M u).previous_length = u.previous_length) ∨
     (1 ≤ u.nextVertexIndex ∧ (tessellate M u).previous_length =
       u.previous_length + ((u.currentPoint.sub u.previousPoint).len M))) := by
  unfold tessellate
  split
  · rename_i h
    obtain ⟨hp, htss, hnv⟩ := startPath_len M u
    exact ⟨htss, le_of_eq hnv.symm, Or.inl ⟨h, hp⟩⟩
  · rename_i h
    split
    · obtain ⟨hp, htss, hnv⟩ := firstSegment_len M u
      exact ⟨htss, hnv, Or.inr ⟨by omega, hp⟩⟩
    · obtain ⟨hp, htss, hnv⟩ := addSegment_len M u
      exact ⟨htss, hnv, Or.inr ⟨by omega, hp⟩⟩

theorem lenInv_tess_step (M : RealFns) (hM : ∀ q, 0 ≤ q → 0 ≤ M.sqrt q)
    (s u : PBD) (x y : ℚ)
    (htess : u.tess = s.tess) (hplen : u.previous_length = s.previous_length)
    (hnvi : u.nextVertexIndex = s.nextVertexIndex)
    (hppt : u.previousPoint = s.previousPoint)
    (hcpt : u.currentPoint = ⟨x, y⟩)
    (h : LenInv M s) :
    LenInv M { tessellate M u with
      previousPoint := ⟨x, y⟩
      tess := (tessellate M u).tess ++ [⟨x, y⟩] } ∧
    s.previous_length ≤ (tessellate M u).previous_length := by
  obtain ⟨htss2, hnv2, hca⟩ := tessellate_len M u
  constructor
  · rcases h with ⟨he, hz0, hp0⟩ | ⟨hlast, hp2, h1s⟩
    · rcases hca with ⟨_, hp⟩ | ⟨h1, _⟩
      · refine Or.inr ⟨?_, ?_, ?_⟩
        · show ((tessellate M u).tess ++ [(⟨x, y⟩ : Vec2)]).getLast? = some (⟨x, y⟩ : Vec2)
          exact List.getLast?_concat _
        · show (tessellate M u).previous_length =
            pathLen M ((tessellate M u).tess ++ [(⟨x, y⟩ : Vec2)])
          rw [htss2, htess, he, hp, hplen, hp0]
          rfl
        · exact hnv2
      · rw [hnvi, hz0] at h1
        exact (Nat.not_succ_le_zero 0 h1).elim
    · rcases hca with ⟨hz, _⟩ | ⟨_, hp⟩
      · rw [hnvi] at hz
        rw [hz] at h1s
        exact (Nat.not_succ_le_zero 0 h1s).elim
      · refine Or.inr ⟨?_, ?_, ?_⟩
        · show ((tessellate M u).tess ++ [(⟨x, y⟩ : Vec2)]).getLast? = some (⟨x, y⟩ : Vec2)
          exact List.getLast?_concat _
        · show (tessellate M u).previous_length =
            pathLen M ((tessellate M u).tess ++ [(⟨x, y⟩ : Vec2)])
          rw [htss2, htess, hp, hplen, hcpt, hppt, hp2,
            pathLen_append M s.tess s.previousPoint ⟨x, y⟩ hlast]
        · exact hnv2
  · rcases hca with ⟨_, hp⟩ | ⟨_, hp⟩
    · rw [hp, hplen]
    · rw [hp, hplen, hcpt, hppt]
      exact le_add_of_nonneg_right (hM _ (add_nonneg (mul_self_nonneg _) (mul_self_nonneg _)))

theorem lenInv_addPoint (M : RealFns) (hM : ∀ q, 0 ≤ q → 0 ≤ M.sqrt q)
    (s : PBD) (x y : ℚ) (h : LenInv M s) :
    LenInv M (addPoint M s x y) ∧
    s.previous_length ≤ (addPoint M s x y).previous_length := by
  unfold addPoint
  simp only []
  split
  · exact lenInv_tess_step M hM s { expandBuffers s with currentPoint := ⟨x, y⟩ } x y
      rfl rfl rfl rfl rfl h
  · exact lenInv_tess_step M hM s { s with currentPoint := ⟨x, y⟩ } x y
      rfl rfl rfl rfl rfl h

theorem lenInv_addMidPoint (M : RealFns) (hM : ∀ q, 0 ≤ q → 0 ≤ M.sqrt q)
    (s : PBD) (x y : ℚ) (h : LenInv M s) :
    LenInv M (addMidPoint M s x y) ∧
    s.previous_length ≤ (addMidPoint M s x y).previous_length := by
  unfold addMidPoint
  exact lenInv_addPoint M hM s _ _ h

theorem lenInv_foldl (M : RealFns) (hM : ∀ q, 0 ≤ q → 0 ≤ M.sqrt q) (a b : ℕ → ℚ) :
    ∀ (l : List ℕ) (s : PBD), LenInv M s →
      LenInv M (l.foldl (fun u i => addPoint M u (a i) (b i)) s) ∧
      s.previous_length ≤ (l.foldl (fun u i => addPoint M u (a i) (b i)) s).previous_length
  | [], s, h => ⟨h, le_rfl⟩
  | i :: is, s, h => by
    obtain ⟨h1, m1⟩ := lenInv_addPoint M hM s (a i) (b i) h
    obtain ⟨h2, m2⟩ := lenInv_foldl M hM a b is _ h1
    exact ⟨h2, le_trans m1 m2⟩

theorem lenInv_addPointsSmoothly (M : RealFns) (hM : ∀ q, 0 ≤ q → 0 ≤ M.sqrt q)
    (s : PBD) (x y : ℚ) (h : LenInv M s) :
    LenInv M (addPointsSmoothly M s x y) ∧
    s.previous_length ≤ (addPointsSmoothly M s x y).previous_length := by
  unfold addPointsSmoothly
  simp only []
  split
  · obtain ⟨h1, m1⟩ := lenInv_foldl M hM _ _ _ s h
    obtain ⟨h2, m2⟩ := lenInv_addPoint M hM _ _ _ h1
    exact ⟨h2, le_trans m1 m2⟩
  · exact lenInv_addPoint M hM s _ _ h

theorem lenInv_addPointToPath (M : RealFns) (hM : ∀ q, 0 ≤ q → 0 ≤ M.sqrt q)
    (x y : ℚ) (s : PBD) (h : LenInv M s) :
    LenInv M (addPointToPath M x y s) ∧
    s.previous_length ≤ (addPointToPath M x y s).previous_length := by
  unfold addPointToPath
  simp only []
  set s0 : PBD := { s with changes := ⟨maxValue, 0, maxValue, 0, maxValue, 0⟩ } with hs0
  split
  · exact lenInv_addPoint M hM s0 x y h
  · split
    · set s1 : PBD := { s0 with currentDebounce := jsMod (s0.currentDebounce + 1) s0.debounce }
        with hs1
      split
      · exact ⟨h, le_rfl⟩
      · set s2 : PBD := { s1 with currentPoint := (Vec2.mk x y).sub s1.previousPoint } with hs2
        split
        · split
          · exact lenInv_addMidPoint M hM s2 x y h
          · exact lenInv_addPointsSmoothly M hM s2 x y h
        · exact ⟨h, le_rfl⟩
    · exact ⟨h, le_rfl⟩

theorem lenInv_calls (M : RealFns) (hM : ∀ q, 0 ≤ q → 0 ≤ M.sqrt q) :
    ∀ (l : List (ℚ × ℚ)) (s : PBD), LenInv M s →
      LenInv M (l.foldl (fun s p => addPointToPath M p.1 p.2 s) s) ∧
      s.previous_length ≤
        (l.foldl (fun s p => addPointToPath M p.1 p.2 s) s).previous_length
  | [], s, h => ⟨h, le_rfl⟩
  | p :: ps, s, h => by
    obtain ⟨h1, m1⟩ := lenInv_addPointToPath M hM p.1 p.2 s h
    obtain ⟨h2, m2⟩ := lenInv_calls M hM ps _ h1
    exact ⟨h2, le_trans m1 m2⟩

theorem lenInv_mk (M : RealFns) (o : OptIn) : LenInv M (mkPBD M o) :=
  Or.inl ⟨rfl, rfl, rfl⟩

theorem cnt_trans {a a' : ℕ} {b b' : ℤ} {s t w : PBD}
    (h1 : Cnt a b s t) (h2 : Cnt a' b' t w) : Cnt (a + a') (b + b') s w := by
  obtain ⟨m1, v1, t1⟩ := h1
  obtain ⟨m2, v2, t2⟩ := h2
  exact ⟨le_trans m1 m2, by omega, by omega⟩

theorem cnt_weaken {a a' : ℕ} {b b' : ℤ} {s t : PBD}
    (h : Cnt a b s t) (ha : a ≤ a') (hb : b ≤ b') : Cnt a' b' s t := by
  obtain ⟨m1, v1, t1⟩ := h
  exact ⟨m1, by omega, by omega⟩

theorem cnt_refl (s : PBD) (a : ℕ) (b : ℤ) (hb : 0 ≤ b) : Cnt a b s s :=
  ⟨le_rfl, by omega, by omega⟩

theorem nvi_pushVertexData (s : PBD) (x y z d : ℚ) :
    (pushVertexData s x y z d).nextVertexIndex = s.nextVertexIndex + 1 := rfl

theorem nti_pushVertexData (s : PBD) (x y z d : ℚ) :
    (pushVertexData s x y z d).nextTriangleIndex = s.nextTriangleIndex := rfl

theorem nvi_pushTriangleData (s : PBD) (a b c : ℕ) :
    (pushTriangleData s a b c).nextVertexIndex = s.nextVertexIndex := rfl

theorem nti_pushTriangleData (s : PBD) (a b c : ℕ) :
    (pushTriangleData s a b c).nextTriangleIndex = s.nextTriangleIndex + 1 := rfl

theorem cnt_pushVertexData (s : PBD) (x y z d : ℚ) :
    Cnt 1 (-1) s (pushVertexData s x y z d) := by
  have hv := nvi_pushVertexData s x y z d
  have ht := nti_pushVertexData s x y z d
  exact ⟨by omega, by omega, by omega⟩

theorem cnt_pushTriangleData (s : PBD) (a b c : ℕ) :
    Cnt 0 1 s (pushTriangleData s a b c) := by
  have hv := nvi_pushTriangleData s a b c
  have ht := nti_pushTriangleData s a b c
  exact ⟨by omega, by omega, by omega⟩

theorem cnt_breakFold (step : ℕ → PBD → PBD) (cond : ℕ → Bool) (brk : ℕ → PBD → PBD)
    (hstep : ∀ i u, Cnt 1 0 u (step i u))
    (hbrk : ∀ i u, Cnt 0 1 u (brk i u)) :
    ∀ (l : List ℕ) (s : PBD) (b : Bool),
      Cnt l.length 1 s (breakFold step cond brk l (s, b)).1
  | [], s, b => cnt_refl s _ 1 (by omega)
  | i :: is, s, b => by
    simp only [breakFold, List.length_cons]
    split
    · exact cnt_refl s _ 1 (by omega)
    · split
      · exact cnt_weaken (hbrk i s) (by omega) le_rfl
      · exact cnt_weaken
          (cnt_trans (hstep i s) (cnt_breakFold step cond brk hstep hbrk is (step i s) false))
          (by omega) (by omega)

theorem cnt_jointLink (M : RealFns) (r slice : ℚ) (prevPt tds ptds : Vec2) (prevLen : ℚ)
    (previousCenterIndex p1Index p4Index prevP2Index prevP3Index : ℕ)
    (dot1 dot2 : ℚ) (s : PBD) :
    Cnt (loopIdx r).length 1 s (jointLink M r slice prevPt tds ptds prevLen
      previousCenterIndex p1Index p4Index prevP2Index prevP3Index dot1 dot2 s) := by
  unfold jointLink
  split
  · split
    · refine cnt_breakFold _ _ _ ?_ ?_ _ _ _
      · intro i v
        try simp only []
        split
        · exact cnt_weaken
            (cnt_trans (cnt_pushVertexData _ _ _ _ _) (cnt_pushTriangleData _ _ _ _))
            (by omega) (by omega)
        · exact cnt_weaken
            (cnt_trans (cnt_pushVertexData _ _ _ _ _) (cnt_pushTriangleData _ _ _ _))
            (by omega) (by omega)
      · intro i v
        exact cnt_pushTriangleData _ _ _ _
    · exact cnt_refl s _ 1 (by omega)
  · split
    · refine cnt_breakFold _ _ _ ?_ ?_ _ _ _
      · intro i v
        exact cnt_weaken
          (cnt_trans (cnt_pushVertexData _ _ _ _ _) (cnt_pushTriangleData _ _ _ _))
          (by omega) (by omega)
      · intro i v
        exact cnt_pushTriangleData _ _ _ _
    · refine cnt_breakFold _ _ _ ?_ ?_ _ _ _
      · intro i v
        try simp only []
        split
        · exact cnt_weaken
            (cnt_trans (cnt_pushVertexData _ _ _ _ _) (cnt_pushTriangleData _ _ _ _))
            (by omega) (by omega)
        · exact cnt_weaken
            (cnt_trans (cnt_pushVertexData _ _ _ _ _) (cnt_pushTriangleData _ _ _ _))
            (by omega) (by omega)
      · intro i v
        try simp only []
        split
        · exact cnt_pushTriangleData _ _ _ _
        · exact cnt_pushTriangleData _ _ _ _

theorem start_final_cap {u X : PBD} (hX : Ev u X) :
    ({ X with nextTriangleIndex := 0, nextVertexIndex := 1 } : PBD).maxVerticesCount =
      u.maxVerticesCount := hX.cap

theorem seg_final_cap {u X : PBD} {nst c : ℕ} {L : ℚ}
    {v1 v2 v3 q1 q2 q3 q4 : Vec2} {i2 i3 : ℕ} (hX : Ev u X) :
    ({ X with
      nextTriangleIndex := nst
      nextVertexIndex := c + 1
      previous_length := L
      previous_translation := v1
      previous_thicknessDirection := v2
      previous_thicknessDirectionScaled := v3
      previous_p1 := q1
      previous_p2 := q2
      previous_p3 := q3
      previous_p4 := q4
      previous_p2Index := i2
      previous_p3Index := i3 } : PBD).maxVerticesCount = u.maxVerticesCount := hX.cap

theorem first_cnt_final {u Q W : PBD} {n nst : ℕ}
    (hQv : Q.nextVertexIndex = u.nextVertexIndex + 4)
    (hQt : Q.nextTriangleIndex = u.nextTriangleIndex + 2)
    (hW : Cnt n 1 Q W)
    (hnst : nst = W.nextTriangleIndex ∨ nst = Q.nextTriangleIndex) :
    W.nextVertexIndex + 1 ≤ u.nextVertexIndex + (n + 5) ∧
    (u.nextTriangleIndex ≤ u.nextVertexIndex → nst ≤ W.nextVertexIndex + 1) := by
  obtain ⟨hm, hv, ht⟩ := hW
  constructor
  · omega
  · intro h
    rcases hnst with rfl | rfl <;> omega

theorem seg_cnt_final {u Q J : PBD} {n : ℕ}
    (hQv : Q.nextVertexIndex = u.nextVertexIndex + 4)
    (hQt : Q.nextTriangleIndex = u.nextTriangleIndex + 2)
    (hJ : Cnt n 1 Q J) :
    J.nextVertexIndex + 1 ≤ u.nextVertexIndex + (n + 5) ∧
    (u.nextTriangleIndex ≤ u.nextVertexIndex →
      J.nextTriangleIndex ≤ J.nextVertexIndex + 1) := by
  obtain ⟨hm, hv, ht⟩ := hJ
  constructor
  · omega
  · intro h
    omega

theorem startPath_count (M : RealFns) (u : PBD) :
    (startPath M u).nextVertexIndex = 1 ∧
    (startPath M u).nextTriangleIndex = 0 ∧
    (startPath M u).maxVerticesCount = u.maxVerticesCount := by
  refine ⟨rfl, rfl, ?_⟩
  unfold startPath
  refine start_final_cap ?_
  refine ev_trans (ev_pushVertexData _ _ _ _ _) (ev_foldl _ ?_ _ _)
  intro v i
  simp only []
  split
  · exact ev_trans (ev_pushVertexData _ _ _ _ _) (ev_pushTriangleData _ _ _ _)
  · exact ev_trans (ev_pushVertexData _ _ _ _ _) (ev_pushTriangleData _ _ _ _)

set_option maxHeartbeats 1000000 in
theorem firstSegment_count (M : RealFns) (u : PBD) :
    ((firstSegment M u).nextVertexIndex ≤
      u.nextVertexIndex + ((loopIdx u.roundness).length + 5) ∧
    (u.nextTriangleIndex ≤ u.nextVertexIndex →
      (firstSegment M u).nextTriangleIndex ≤ (firstSegment M u).nextVertexIndex)) ∧
    (firstSegment M u).maxVerticesCount = u.maxVerticesCount := by
  constructor
  · unfold firstSegment
    simp only []
    refine first_cnt_final ?hQv ?hQt (cnt_breakFold _ _ _ ?hs ?hb _ _ _) ?hnst
    case hQv =>
      rw [nvi_pushTriangleData, nvi_pushTriangleData, nvi_pushVertexData,
        nvi_pushVertexData, nvi_pushVertexData, nvi_pushVertexData]
      try omega
    case hQt =>
      rw [nti_pushTriangleData, nti_pushTriangleData, nti_pushVertexData,
        nti_pushVertexData, nti_pushVertexData, nti_pushVertexData]
      try omega
    case hs =>
      intro i v
      exact cnt_weaken
        (cnt_trans (cnt_pushVertexData _ _ _ _ _) (cnt_pushTriangleData _ _ _ _))
        (by omega) (by omega)
    case hb =>
      intro i v
      exact cnt_pushTriangleData _ _ _ _
    case hnst =>
      split
      · exact Or.inl rfl
      · exact Or.inr rfl
  · unfold firstSegment
    refine seg_final_cap ?_
    refine ev_trans ?_ (ev_breakFold _ _ _ ?_ ?_ _ _ _)
    · refine ev_trans ?_ (ev_pushVertexData _ _ _ _ _)
      refine ev_trans ?_ (ev_breakFold _ _ _ ?_ ?_ _ _ _)
      · refine ev_trans ?_ (ev_pushTriangleData _ _ _ _)
        refine ev_trans ?_ (ev_pushTriangleData _ _ _ _)
        refine ev_trans ?_ (ev_pushVertexData _ _ _ _ _)
        refine ev_trans ?_ (ev_pushVertexData _ _ _ _ _)
        refine ev_trans ?_ (ev_pushVertexData _ _ _ _ _)
        exact ev_pushVertexData _ _ _ _ _
      · intro i v
        exact ev_trans (ev_pushVertexData _ _ _ _ _) (ev_pushTriangleData _ _ _ _)
      · intro i v
        exact ev_pushTriangleData _ _ _ _
    · intro i v
      simp only []
      split
      · exact ev_trans (ev_pushVertexData _ _ _ _ _) (ev_pushTriangleData _ _ _ _)
      · exact ev_trans (ev_pushVertexData _ _ _ _ _) (ev_pushTriangleData _ _ _ _)
    · intro i v
      exact ev_pushTriangleData _ _ _ _

set_option maxHeartbeats 1000000 in
theorem addSegment_count (M : RealFns) (u : PBD) :
    ((addSegment M u).nextVertexIndex ≤
      u.nextVertexIndex + ((loopIdx u.roundness).length + 5) ∧
    (u.nextTriangleIndex ≤ u.nextVertexIndex →
      (addSegment M u).nextTriangleIndex ≤ (addSegment M u).nextVertexIndex)) ∧
    (addSegment M u).maxVerticesCount = u.maxVerticesCount := by
  constructor
  · unfold addSegment
    simp only []
    refine seg_cnt_final ?hQv ?hQt (cnt_jointLink _ _ _ _ _ _ _ _ _ _ _ _ _ _ _)
    case hQv =>
      rw [nvi_pushTriangleData, nvi_pushTriangleData, nvi_pushVertexData,
        nvi_pushVertexData, nvi_pushVertexData, nvi_pushVertexData]
      try omega
    case hQt =>
      rw [nti_pushTriangleData, nti_pushTriangleData, nti_pushVertexData,
        nti_pushVertexData, nti_pushVertexData, nti_pushVertexData]
      try omega
  · unfold addSegment
    refine seg_final_cap ?_
    refine ev_trans ?_ (ev_breakFold _ _ _ ?_ ?_ _ _ _)
    · refine ev_trans ?_ (ev_pushVertexData _ _ _ _ _)
      refine ev_trans ?_ (ev_jointLink _ _ _ _ _ _ _ _ _ _ _ _ _ _ _)
      refine ev_trans ?_ (ev_pushTriangleData _ _ _ _)
      refine ev_trans ?_ (ev_pushTriangleData _ _ _ _)
      refine ev_trans ?_ (ev_pushVertexData _ _ _ _ _)
      refine ev_trans ?_ (ev_pushVertexData _ _ _ _ _)
      refine ev_trans ?_ (ev_pushVertexData _ _ _ _ _)
      exact ev_pushVertexData _ _ _ _ _
    · intro i v
      simp only []
      split
      · exact ev_trans (ev_pushVertexData _ _ _ _ _) (ev_pushTriangleData _ _ _ _)
      · exact ev_trans (ev_pushVertexData _ _ _ _ _) (ev_pushTriangleData _ _ _ _)
    · intro i v
      exact ev_pushTriangleData _ _ _ _

theorem tessellate_count (M : RealFns) (u : PBD) :
    (tessellate M u).nextVertexIndex ≤
      u.nextVertexIndex + ((loopIdx u.roundness).length + 5) ∧
    (u.nextTriangleIndex ≤ u.nextVertexIndex →
      (tessellate M u).nextTriangleIndex ≤ (tessellate M u).nextVertexIndex) ∧
    (tessellate M u).maxVerticesCount = u.maxVerticesCount := by
  unfold tessellate
  split
  · obtain ⟨h1, h2, h3⟩ := startPath_count M u
    exact ⟨by omega, fun _ => by omega, h3⟩
  · split
    · obtain ⟨⟨h1, h2⟩, h3⟩ := firstSegment_count M u
      exact ⟨h1, h2, h3⟩
    · obtain ⟨⟨h1, h2⟩, h3⟩ := addSegment_count M u
      exact ⟨h1, h2, h3⟩

theorem capInv_addPoint (M : RealFns) (s : PBD) (x y : ℚ)
    (hb : BudgetOK s) (hc : CapInv s) :
    CapInv (addPoint M s x y) ∧ BudgetOK (addPoint M s x y) := by
  obtain ⟨hv, hts, hlo, hsz⟩ := hc
  have h0 : s.nextVertexIndex = 0 → s.nextTriangleIndex = 0 := fun hz => by omega
  obtain ⟨hse, _⟩ := stepEv_addPoint M s x y h0 hsz
  have hvs : verticesStartSize = 10000 := rfl
  have hn : (loopIdx s.roundness).length + 5 ≤ verticesStartSize := by
    exact_mod_cast le_trans hb.1 hb.2
  have hcur : (addPoint M s x y).nextVertexIndex ≤ (addPoint M s x y).maxVerticesCount ∧
      (addPoint M s x y).nextTriangleIndex ≤ (addPoint M s x y).nextVertexIndex := by
    unfold addPoint
    simp only []
    split
    · set u1 : PBD := { expandBuffers s with currentPoint := ⟨x, y⟩ } with hu1
      obtain ⟨hvt, hti, hcap⟩ := tessellate_count M u1
      have e1 : u1.nextVertexIndex = s.nextVertexIndex := rfl
      have e2 : u1.roundness = s.roundness := rfl
      have e3 : u1.maxVerticesCount = s.maxVerticesCount * 2 := rfl
      rw [e1, e2] at hvt
      rw [e3] at hcap
      constructor
      · show (tessellate M u1).nextVertexIndex ≤ (tessellate M u1).maxVerticesCount
        rw [hcap]
        omega
      · exact hti hts
    · rename_i hexp
      set u1 : PBD := { s with currentPoint := ⟨x, y⟩ } with hu1
      obtain ⟨hvt, hti, hcap⟩ := tessellate_count M u1
      have e1 : u1.nextVertexIndex = s.nextVertexIndex := rfl
      have e2 : u1.roundness = s.roundness := rfl
      have e3 : u1.maxVerticesCount = s.maxVerticesCount := rfl
      rw [e1, e2] at hvt
      rw [e3] at hcap
      simp only [shouldExpand, decide_eq_true_eq, not_lt, mul_one] at hexp
      have hq : (s.nextVertexIndex : ℚ) + (((loopIdx s.roundness).length : ℚ) + 5) ≤
          (s.maxVerticesCount : ℚ) := by
        have hb1 := hb.1
        linarith
      have hq2 : s.nextVertexIndex + ((loopIdx s.roundness).length + 5) ≤
          s.maxVerticesCount := by
        exact_mod_cast hq
      constructor
      · show (tessellate M u1).nextVertexIndex ≤ (tessellate M u1).maxVerticesCount
        rw [hcap]
        omega
      · exact hti hts
  refine ⟨⟨hcur.1, hcur.2, ?_, hse.sizeInv hsz⟩, ?_, ?_⟩
  · obtain ⟨m, hm⟩ := hse.capgrow
    rw [hm]
    exact le_trans hlo (Nat.le_mul_of_pos_right _ (by positivity))
  · rw [hse.rnd, hse.mavp]
    exact hb.1
  · rw [hse.mavp]
    exact hb.2

theorem capInv_addMidPoint (M : RealFns) (s : PBD) (x y : ℚ)
    (hb : BudgetOK s) (hc : CapInv s) :
    CapInv (addMidPoint M s x y) ∧ BudgetOK (addMidPoint M s x y) := by
  unfold addMidPoint
  exact capInv_addPoint M s _ _ hb hc

theorem capInv_foldl (M : RealFns) (a b : ℕ → ℚ) :
    ∀ (l : List ℕ) (s : PBD), BudgetOK s → CapInv s →
      CapInv (l.foldl (fun u i => addPoint M u (a i) (b i)) s) ∧
      BudgetOK (l.foldl (fun u i => addPoint M u (a i) (b i)) s)
  | [], s, hb, hc => ⟨hc, hb⟩
  | i :: is, s, hb, hc => by
    obtain ⟨h1, h2⟩ := capInv_addPoint M s (a i) (b i) hb hc
    exact capInv_foldl M a b is _ h2 h1

theorem capInv_addPointsSmoothly (M : RealFns) (s : PBD) (x y : ℚ)
    (hb : BudgetOK s) (hc : CapInv s) :
    CapInv (addPointsSmoothly M s x y) ∧ BudgetOK (addPointsSmoothly M s x y) := by
  unfold addPointsSmoothly
  simp only []
  split
  · obtain ⟨h1, h2⟩ := capInv_foldl M _ _ _ s hb hc
    exact capInv_addPoint M _ _ _ h2 h1
  · exact capInv_addPoint M s _ _ hb hc

theorem capInv_addPointToPath (M : RealFns) (x y : ℚ) (s : PBD)
    (hb : BudgetOK s) (hc : CapInv s) :
    CapInv (addPointToPath M x y s) ∧ BudgetOK (addPointToPath M x y s) := by
  unfold addPointToPath
  simp only []
  set s0 : PBD := { s with changes := ⟨maxValue, 0, maxValue, 0, maxValue, 0⟩ } with hs0
  split
  · exact capInv_addPoint M s0 x y hb hc
  · split
    · set s1 : PBD := { s0 with currentDebounce := jsMod (s0.currentDebounce + 1) s0.debounce }
        with hs1
      split
      · exact ⟨hc, hb⟩
      · set s2 : PBD := { s1 with currentPoint := (Vec2.mk x y).sub s1.previousPoint } with hs2
        split
        · split
          · exact capInv_addMidPoint M s2 x y hb hc
          · exact capInv_addPointsSmoothly M s2 x y hb hc
        · exact ⟨hc, hb⟩
    · exact ⟨hc, hb⟩

theorem capInv_calls (M : RealFns) :
    ∀ (l : List (ℚ × ℚ)) (s : PBD), BudgetOK s → CapInv s →
      CapInv (l.foldl (fun s p => addPointToPath M p.1 p.2 s) s) ∧
      BudgetOK (l.foldl (fun s p => addPointToPath M p.1 p.2 s) s)
  | [], s, hb, hc => ⟨hc, hb⟩
  | p :: ps, s, hb, hc => by
    obtain ⟨h1, h2⟩ := capInv_addPointToPath M p.1 p.2 s hb hc
    exact capInv_calls M ps _ h2 h1

theorem capInv_mk (M : RealFns) (o : OptIn) : CapInv (mkPBD M o) :=
  ⟨Nat.zero_le _, le_rfl, le_rfl, rfl, rfl, rfl⟩

theorem mk_h0 (M : RealFns) (o : OptIn) :
    (mkPBD M o).nextVertexIndex = 0 → (mkPBD M o).nextTriangleIndex = 0 :=
  fun _ => rfl

theorem mk_sizeInv (M : RealFns) (o : OptIn) : SizeInv (mkPBD M o) :=
  ⟨rfl, rfl, rfl⟩

theorem mk_zpad (M : RealFns) (o : OptIn) : ZeroPad (mkPBD M o) :=
  ⟨fun _ _ => rfl, fun _ _ => rfl, fun _ _ => rfl⟩

theorem callEv_foldl (M : RealFns) :
    ∀ (l : List (ℚ × ℚ)) (s : PBD),
      (s.nextVertexIndex = 0 → s.nextTriangleIndex = 0) → SizeInv s →
      CallEv s (l.foldl (fun s p => addPointToPath M p.1 p.2 s) s)
  | [], s, _, _ => callEv_refl s
  | p :: ps, s, h0, hsz => by
    have h1 := callEv_addPointToPath M p.1 p.2 s h0 hsz
    exact callEv_trans h1 (callEv_foldl M ps _ (h1.keep0 h0) (h1.sizeInv hsz))

theorem callEv_run (M : RealFns) (o : OptIn) (pts : List (ℚ × ℚ)) :
    CallEv (mkPBD M o) (runSamples M o pts) :=
  callEv_foldl M pts (mkPBD M o) (mk_h0 M o) (mk_sizeInv M o)

theorem run_h0 (M : RealFns) (o : OptIn) (pts : List (ℚ × ℚ)) :
    (runSamples M o pts).nextVertexIndex = 0 → (runSamples M o pts).nextTriangleIndex = 0 :=
  (callEv_run M o pts).keep0 (mk_h0 M o)

theorem run_sizeInv (M : RealFns) (o : OptIn) (pts : List (ℚ × ℚ)) :
    SizeInv (runSamples M o pts) :=
  (callEv_run M o pts).sizeInv (mk_sizeInv M o)

theorem run_zpad (M : RealFns) (o : OptIn) (pts : List (ℚ × ℚ)) :
    ZeroPad (runSamples M o pts) :=
  (callEv_run M o pts).zpad (mk_zpad M o)

theorem run_append_callEv (M : RealFns) (o : OptIn) (l1 l3 : List (ℚ × ℚ)) :
    CallEv (runSamples M o l1) (runSamples M o (l1 ++ l3)) := by
  have heq : runSamples M o (l1 ++ l3) =
      l3.foldl (fun s p => addPointToPath M p.1 p.2 s) (runSamples M o l1) := by
    unfold runSamples
    rw [List.foldl_append]
  rw [heq]
  exact callEv_foldl M l3 (runSamples M o l1) (run_h0 M o l1) (run_sizeInv M o l1)

theorem maxValue_pos : ¬ ((maxValue : ℚ) ≤ 0) := by
  unfold maxValue
  norm_num

theorem changes_report {u t : PBD} (h : StepEv u t) (hu : u.changes = sentinelChanges) :
    ∃ new, t.log = new ++ u.log ∧
      (∀ e ∈ new, e.isVert = true →
        t.changes.vertexPositionStart ≤ ((e.index * 3 : ℕ) : ℚ) ∧
        ((e.index * 3 : ℕ) : ℚ) ≤ t.changes.vertexPositionEnd ∧
        t.changes.vertexDistanceStart ≤ ((e.index * 1 : ℕ) : ℚ) ∧
        ((e.index * 1 : ℕ) : ℚ) ≤ t.changes.vertexDistanceEnd) ∧
      (∀ e ∈ new, e.isVert = false →
        t.changes.indexStart ≤ ((e.index * 3 : ℕ) : ℚ) ∧
        ((e.index * 3 : ℕ) : ℚ) ≤ t.changes.indexEnd) ∧
      (t.changes = sentinelChanges ↔ new = []) := by
  obtain ⟨new, hl, hemp, hb⟩ := h.lg
  refine ⟨new, hl, fun e hm hv => (hb e hm).1 hv, fun e hm hv => (hb e hm).2 hv, ?_, ?_⟩
  · intro hsent
    cases new with
    | nil => rfl
    | cons e rest =>
      exfalso
      have hme : e ∈ e :: rest := List.mem_cons_self e rest
      cases hvb : e.isVert with
      | true =>
        obtain ⟨h1, h2, _, _⟩ := (hb e hme).1 hvb
        rw [hsent] at h1 h2
        exact maxValue_pos (le_trans h1 h2)
      | false =>
        obtain ⟨h1, h2⟩ := (hb e hme).2 hvb
        rw [hsent] at h1 h2
        exact maxValue_pos (le_trans h1 h2)
  · intro hne
    rw [hemp hne, hu]

theorem report_addPointToPath (M : RealFns) (x y : ℚ) (s : PBD)
    (h0 : s.nextVertexIndex = 0 → s.nextTriangleIndex = 0) (hsz : SizeInv s) :
    ∃ new, (addPointToPath M x y s).log = new ++ s.log ∧
      (∀ e ∈ new, e.isVert = true →
        (addPointToPath M x y s).changes.vertexPositionStart ≤ ((e.index * 3 : ℕ) : ℚ) ∧
        ((e.index * 3 : ℕ) : ℚ) ≤ (addPointToPath M x y s).changes.vertexPositionEnd ∧
        (addPointToPath M x y s).changes.vertexDistanceStart ≤ ((e.index * 1 : ℕ) : ℚ) ∧
        ((e.index * 1 : ℕ) : ℚ) ≤ (addPointToPath M x y s).changes.vertexDistanceEnd) ∧
      (∀ e ∈ new, e.isVert = false →
        (addPointToPath M x y s).changes.indexStart ≤ ((e.index * 3 : ℕ) : ℚ) ∧
        ((e.index * 3 : ℕ) : ℚ) ≤ (addPointToPath M x y s).changes.indexEnd) ∧
      ((addPointToPath M x y s).changes = sentinelChanges ↔ new = []) := by
  unfold addPointToPath
  simp only []
  set s0 : PBD := { s with changes := ⟨maxValue, 0, maxValue, 0, maxValue, 0⟩ } with hs0
  split
  · have r := changes_report (stepEv_addPoint M s0 x y h0 hsz).1 rfl
    exact r
  · split
    · set s1 : PBD := { s0 with currentDebounce := jsMod (s0.currentDebounce + 1) s0.debounce }
        with hs1
      split
      · exact ⟨[], rfl, fun e hm _ => absurd hm (List.not_mem_nil e),
          fun e hm _ => absurd hm (List.not_mem_nil e), iff_of_true rfl rfl⟩
      · set s2 : PBD := { s1 with currentPoint := (Vec2.mk x y).sub s1.previousPoint } with hs2
        split
        · split
          · have r := changes_report (stepEv_addMidPoint M s2 x y h0 hsz).1 rfl
            exact r
          · have r := changes_report (stepEv_addPointsSmoothly M s2 x y h0 hsz).1 rfl
            exact r
        · exact ⟨[], rfl, fun e hm _ => absurd hm (List.not_mem_nil e),
            fun e hm _ => absurd hm (List.not_mem_nil e), iff_of_true rfl rfl⟩
    · exact ⟨[], rfl, fun e hm _ => absurd hm (List.not_mem_nil e),
        fun e hm _ => absurd hm (List.not_mem_nil e), iff_of_true rfl rfl⟩

theorem points_addPointToPath (M : RealFns) (x y : ℚ) (s : PBD)
    (h0 : s.nextVertexIndex = 0 → s.nextTriangleIndex = 0) (hsz : SizeInv s) :
    (addPointToPath M x y s).points =
      if s.points.length ≠ 0 ∧
          ¬(s.previousPoint.x = x ∧ s.previousPoint.y = y) ∧
          jsMod (s.currentDebounce + 1) s.debounce ≠ 0
      then s.points
      else s.points ++ [x, y] := by
  unfold addPointToPath
  simp only []
  set s0 : PBD := { s with changes := ⟨maxValue, 0, maxValue, 0, maxValue, 0⟩ } with hs0
  split
  · rename_i h
    rw [if_neg (fun hc => hc.1 h)]
    exact congrArg (fun l => l ++ [x, y]) (stepEv_addPoint M s0 x y h0 hsz).1.pts
  · rename_i h1
    split
    · rename_i hprev
      set s1 : PBD := { s0 with currentDebounce := jsMod (s0.currentDebounce + 1) s0.debounce }
        with hs1
      split
      · rename_i hdb
        rw [if_pos ⟨h1, hprev, hdb⟩]
      · rename_i hdb
        set s2 : PBD := { s1 with currentPoint := (Vec2.mk x y).sub s1.previousPoint } with hs2
        split
        · split
          · rw [if_neg (fun hc => hdb hc.2.2)]
            exact congrArg (fun l => l ++ [x, y]) (stepEv_addMidPoint M s2 x y h0 hsz).1.pts
          · rw [if_neg (fun hc => hdb hc.2.2)]
            exact congrArg (fun l => l ++ [x, y]) (stepEv_addPointsSmoothly M s2 x y h0 hsz).1.pts
        · rw [if_neg (fun hc => hdb hc.2.2)]
    · rename_i hprev
      rw [if_neg (fun hc => hprev hc.2.1)]

attribute [local semireducible] Rat.add Rat.mul Rat.sub Rat.inv

/-- C5: Scenario A — with options `{radius: 5, roundness: 16, debounce: 1,
smoothingDistance: 20}`, one `addPointToPath(0, 0)` call performs exactly
`1 + 16` vertex writes and `16` triangle writes, leaves `indicesCount = 48`
and `totalLength = 0`. -/
theorem c5_scenarioA_counts :
    (scenarioA.log.filter (·.isVert)).length = 17 ∧
    (scenarioA.log.filter (fun e => e.isVert = false)).length = 16 ∧
    scenarioA.indicesCount = 48 ∧
    scenarioA.totalLength = 0 := by decide

/-- C1 counterexample: Scenario B on the code — after Scenario A,
`addPointToPath(100, 0)` tessellates the midpoint `(50, 0)`, so `totalLength`
becomes `50`, not approximately `100`; the call performs a vertex write at
index `1 < 17` (the event `vert 1 0 (-5) 0 0` among the 37 events it
appends), and it alters the previously written position value at buffer
offset `3` (vertex 1's x-coordinate) from `5` to `0`.  Every oracle value
these facts depend on (`sqrt 10000 = 100`, `sqrt 2500 = 50`, `cos 0 = 1`,
`sin 0 = 0`) is the exact real value, so the real program takes the same
branches. -/
theorem c1_scenarioB_counterexample :
    scenarioB.totalLength = 50 ∧
    ¬ scenarioB.totalLength = 100 ∧
    scenarioB.log.drop 37 = scenarioA.log ∧
    (WriteEv.vert 1 0 (-5) 0 0 10000) ∈ scenarioB.log.take 37 ∧
    scenarioA.positions.data 3 = 5 ∧
    scenarioB.positions.data 3 = 0 := by decide

/-- C1 amended: starting from the Scenario A state, `addPointToPath(100, 0)`
makes `totalLength` equal `50` (the distance from `(0,0)` to the tessellated
midpoint `(50, 0)`), appends 37 write events whose vertex writes all land at
indices `1` through `19` (rebuilding the start cap's contour region, not
appending from index 17), and leaves the centre vertex (index 0) position and
distance values unchanged while overwriting contour vertex 1. -/
theorem c1_scenarioB_amended :
    scenarioB.totalLength = 50 ∧
    scenarioB.log.drop 37 = scenarioA.log ∧
    (∀ e ∈ scenarioB.log.take 37, e.isVert = true → 1 ≤ e.index ∧ e.index ≤ 19) ∧
    scenarioB.positions.data 0 = scenarioA.positions.data 0 ∧
    scenarioB.positions.data 1 = scenarioA.positions.data 1 ∧
    scenarioB.positions.data 2 = scenarioA.positions.data 2 ∧
    scenarioB.distances.data 0 = scenarioA.distances.data 0 ∧
    scenarioA.positions.data 3 = 5 ∧
    scenarioB.positions.data 3 = 0 ∧
    scenarioB.indicesCount = 54 := by decide

/-- C2 counterexample: vertex index 1 is assigned during the first call of
Scenario B (event `vert 1 5 0 0 0`, position value `5` at buffer offset `3`)
and then re-written by the second call (event `vert 1 0 (-5) 0 0` among the
37 events that call appends), changing the stored position value from `5` to
`0` — so a vertex's position values are not immutable once assigned. -/
theorem c2_counterexample :
    (WriteEv.vert 1 5 0 0 0 10000) ∈ scenarioA.log ∧
    scenarioB.log.drop 37 = scenarioA.log ∧
    (WriteEv.vert 1 0 (-5) 0 0 10000) ∈ scenarioB.log.take 37 ∧
    scenarioA.positions.data 3 = 5 ∧
    scenarioB.positions.data 3 = 0 := by decide

/-- C2 amended: across any sequence of `addPointToPath` calls (started from a
freshly constructed instance), the two cursors `_nextVertexIndex` and
`_nextTriangleIndex` are non-decreasing, and all buffer data strictly below
the cursors reached at the end of one call — position and distance values of
vertex indices below `_nextVertexIndex`, and index-buffer entries below
`3 * _nextTriangleIndex` — is never modified by later calls.  (The original
claim's "once a vertex index `i` has been assigned ... never modified" is
false because `_startPath` rewinds `_nextVertexIndex` to 1, see the
counterexample; below the end-of-call cursors the stability does hold.) -/
theorem c2_amended (M : RealFns) (o : OptIn) (l1 l3 : List (ℚ × ℚ)) :
    (runSamples M o l1).nextVertexIndex ≤ (runSamples M o (l1 ++ l3)).nextVertexIndex ∧
    (runSamples M o l1).nextTriangleIndex ≤ (runSamples M o (l1 ++ l3)).nextTriangleIndex ∧
    (∀ j, j < 3 * (runSamples M o l1).nextVertexIndex →
      (runSamples M o (l1 ++ l3)).positions.data j = (runSamples M o l1).positions.data j) ∧
    (∀ j, j < (runSamples M o l1).nextVertexIndex →
      (runSamples M o (l1 ++ l3)).distances.data j = (runSamples M o l1).distances.data j) ∧
    (∀ j, j < 3 * (runSamples M o l1).nextTriangleIndex →
      (runSamples M o (l1 ++ l3)).indices.data j = (runSamples M o l1).indices.data j) := by
  have h := run_append_callEv M o l1 l3
  have hz := run_zpad M o l1
  exact ⟨h.nvi, h.nti, h.pos hz, h.dst hz, h.idx hz⟩

/-- C3 counterexample: in the run `(0,0), (100,0), (100,0)` the third raw
sample is identical to the immediately preceding raw sample `(100, 0)`, yet
the third call is not ignored: it appends 22 write events and returns a set
change region (`vertexPositionStart = 39`, not the sentinel).  The sample is
only compared against `previousPoint`, the last tessellated point, which is
the midpoint `(50, 0)` here. -/
theorem c3_counterexample :
    scenarioB.points = [0, 0, 100, 0] ∧
    scenarioDup.changes.vertexPositionStart = 39 ∧
    ¬ scenarioDup.changes.vertexPositionStart = maxValue ∧
    scenarioDup.log.drop 22 = scenarioB.log ∧
    ¬ scenarioDup.log.length = scenarioB.log.length := by decide

set_option maxHeartbeats 1000000 in
/-- C3 amended: a call whose sample is filtered out performs no buffer
writes, returns an unset change region and causes no buffer growth; but the
outright-ignore comparison is against `previousPoint`, the last point
actually tessellated, not against the immediately preceding raw sample.
Parts: (general) whenever the history is nonempty and the sample equals
`previousPoint`, the call leaves every buffer, cursor and the capacity
untouched, returns the freshly reset sentinel region, and only appends the
sample to the history; (Scenario C) `(100,0)` then `(100,0)`: the second call
returns an unset region, appends no write events and the capacity stays
10000; (Scenario D, radius 5) a sample 2 units away is ignored (unset region,
no writes) while a sample 10 units away is accepted (set region, new write
events). -/
theorem c3_amended :
    (∀ (M : RealFns) (s : PBD) (x y : ℚ), s.points.length ≠ 0 →
      s.previousPoint = ⟨x, y⟩ →
      (addPointToPath M x y s).changes = sentinelChanges ∧
      (addPointToPath M x y s).log = s.log ∧
      (addPointToPath M x y s).positions = s.positions ∧
      (addPointToPath M x y s).distances = s.distances ∧
      (addPointToPath M x y s).indices = s.indices ∧
      (addPointToPath M x y s).indicesCount = s.indicesCount ∧
      (addPointToPath M x y s).nextVertexIndex = s.nextVertexIndex ∧
      (addPointToPath M x y s).nextTriangleIndex = s.nextTriangleIndex ∧
      (addPointToPath M x y s).maxVerticesCount = s.maxVerticesCount ∧
      (addPointToPath M x y s).points = s.points ++ [x, y]) ∧
    (scenarioC.changes = sentinelChanges ∧ scenarioC.log = scenarioC1.log ∧
      scenarioC.maxVerticesCount = 10000) ∧
    (scenarioD1.changes = sentinelChanges ∧ scenarioD1.log = scenarioA.log ∧
      scenarioD1.maxVerticesCount = 10000) ∧
    (¬ scenarioD2.changes.vertexPositionStart = maxValue ∧
      scenarioD2.log.drop 37 = scenarioA.log ∧
      ¬ scenarioD2.log.length = scenarioA.log.length) := by
  refine ⟨?_, by decide, by decide, by decide⟩
  intro M s x y h1 h2
  have hx : s.previousPoint.x = x := by rw [h2]
  have hy : s.previousPoint.y = y := by rw [h2]
  simp only [addPointToPath, h1, hx, hy, if_false, ite_false, and_self,
    eq_self_iff_true, not_true, not_false_iff, ite_true, if_true]
  trivial

/-- C3 witness: the general ignore rule of the amended claim applied to the
concrete state after one `addPointToPath(100, 0)` call, whose sample equals
`previousPoint`. -/
theorem c3_amended_witness :
    scenarioC1.points.length ≠ 0 ∧
    (addPointToPath refFns 100 0 scenarioC1).changes = sentinelChanges :=
  ⟨by decide, (c3_amended.1 refFns scenarioC1 100 0 (by decide) (by decide)).1⟩

/-- C4 counterexample: with `debounce = 2`, the second call `(10, 0)` is
rejected by the debounce counter and returns from `addPointToPath` before the
`points.push(x, y)` statement — the raw history stays `[0, 0]` instead of
gaining the sample, contradicting "the raw sample is always appended
regardless of the debounce outcome".  (The call indeed wrote nothing: the
write log still has only the first call's 33 events.) -/
theorem c4_counterexample :
    scenarioDeb.points = [0, 0] ∧
    ¬ scenarioDeb.points = [0, 0, 10, 0] ∧
    scenarioDeb.currentDebounce = 1 ∧
    scenarioDeb.log.length = 33 ∧
    scenarioA.log.length = 33 := by decide

/-- C4 amended: a call to `addPointToPath(x, y)` on a reachable state appends
the raw sample `(x, y)` to the raw point history in every case EXCEPT a
debounce rejection: when the history is non-empty, the sample differs from
the last tessellated point, and the incremented debounce counter modulo the
debounce period is nonzero, the call returns early — before the
`points.push(x, y)` statement — and the history is unchanged.  In particular
samples rejected by the minimum-step threshold, and samples equal to the last
tessellated point, ARE still appended. -/
theorem c4_amended (M : RealFns) (o : OptIn) (pre : List (ℚ × ℚ)) (x y : ℚ) :
    (addPointToPath M x y (runSamples M o pre)).points =
      if (runSamples M o pre).points.length ≠ 0 ∧
          ¬((runSamples M o pre).previousPoint.x = x ∧
            (runSamples M o pre).previousPoint.y = y) ∧
          jsMod ((runSamples M o pre).currentDebounce + 1) (runSamples M o pre).debounce ≠ 0
      then (runSamples M o pre).points
      else (runSamples M o pre).points ++ [x, y] :=
  points_addPointToPath M x y (runSamples M o pre) (run_h0 M o pre) (run_sizeInv M o pre)

theorem refSqrt_nonneg : ∀ q : ℚ, 0 ≤ q → 0 ≤ refSqrt q := by
  intro q _
  unfold refSqrt
  repeat' split <;> norm_num

/-- C6: `totalLength` is non-decreasing over any sequence of `addPointToPath`
calls on one instance, and after any sequence of calls it equals the summed
Euclidean length of the polyline of actually tessellated (post-smoothing)
path points, the first tessellated point contributing `0`.  Stated against
the `pathLen` of the ghost tessellated-point list, under the sole assumption
that the square-root function returns a nonnegative result on nonnegative
arguments (as `Math.sqrt` does). -/
theorem c6_totalLength (M : RealFns) (o : OptIn)
    (hM : ∀ q, 0 ≤ q → 0 ≤ M.sqrt q) (l1 l3 : List (ℚ × ℚ)) :
    (runSamples M o l1).totalLength ≤ (runSamples M o (l1 ++ l3)).totalLength ∧
    (runSamples M o l1).totalLength = pathLen M (runSamples M o l1).tess := by
  have hbase : LenInv M (runSamples M o l1) ∧
      (mkPBD M o).previous_length ≤ (runSamples M o l1).previous_length :=
    lenInv_calls M hM l1 (mkPBD M o) (lenInv_mk M o)
  have heq : runSamples M o (l1 ++ l3) =
      l3.foldl (fun s p => addPointToPath M p.1 p.2 s) (runSamples M o l1) := by
    unfold runSamples
    rw [List.foldl_append]
  constructor
  · show (runSamples M o l1).previous_length ≤ (runSamples M o (l1 ++ l3)).previous_length
    rw [heq]
    exact (lenInv_calls M hM l3 (runSamples M o l1) hbase.1).2
  · show (runSamples M o l1).previous_length = pathLen M (runSamples M o l1).tess
    rcases hbase.1 with ⟨he, _, hp0⟩ | ⟨_, hp, _⟩
    · rw [he, hp0]
      rfl
    · exact hp

/-- Witness for C6 at a concrete input: Scenario A extended to Scenario B
under the exact square-root table. -/
theorem c6_totalLength_witness :
    scenarioA.totalLength ≤ scenarioB.totalLength ∧
    scenarioA.totalLength = pathLen refFns scenarioA.tess :=
  c6_totalLength refFns scenAOpts refSqrt_nonneg [(0, 0)] [(100, 0)]

/-- C8 counterexample: for the supplied options `{radius: 0}` (invalid —
below the documented minimum 1), the constructor keeps the supplied value and
clamps it to `1`; the spec's stated policy (replace invalid fields by their
default `5`, then clamp) would give `5`. -/
theorem c8_counterexample :
    (mkPBD refFns { radius := some 0 }).radius = 1 ∧
    specEffectiveRadius { radius := some 0 } = 5 ∧
    ¬ (mkPBD refFns { radius := some 0 }).radius = specEffectiveRadius { radius := some 0 } := by
  decide

/-- C8 amended: missing constructor options fall back to the defaults
`{smoothingDistance: 20, roundness: 16, radius: 5, debounce: 1}`; every
field — supplied or defaulted, valid or not — is then clamped from below
(`smoothingDistance ≥ 5`, `roundness ≥ 4`, `radius ≥ 1`, `debounce ≥ 1`).
Supplied invalid values are clamped, not replaced by defaults. -/
theorem c8_amended (M : RealFns) (o : OptIn) :
    (mkPBD M o).smoothingDistance = max 5 (o.smoothingDistance.getD 20) ∧
    (mkPBD M o).roundness = max 4 (o.roundness.getD 16) ∧
    (mkPBD M o).radius = max 1 (o.radius.getD 5) ∧
    (mkPBD M o).debounce = max 1 (o.debounce.getD 1) ∧
    5 ≤ (mkPBD M o).smoothingDistance ∧
    4 ≤ (mkPBD M o).roundness ∧
    1 ≤ (mkPBD M o).radius ∧
    1 ≤ (mkPBD M o).debounce :=
  ⟨rfl, rfl, rfl, rfl, le_max_left 5 _, le_max_left 4 _, le_max_left 1 _, le_max_left 1 _⟩

/-- C9 counterexample: the change trackers do not widen to include every
written offset — they record only the base offset of each write.  In the
second call of Scenario B the last index-buffer write (triangle 17, logged as
`tri 17 12 3 19`) stores the values 12, 3 and 19 at index-buffer offsets 51,
52 and 53; offsets 52 and 53 observably change from 0 to 3 and to 19 across
the call, yet the returned change region has `indexEnd = 51`, so the written
offsets 52 and 53 lie outside `[indexStart, indexEnd] = [0, 51]`.  (The
consumer compensates by always uploading `end - start + 3` entries.) -/
theorem c9_counterexample :
    scenarioB.log.drop 37 = scenarioA.log ∧
    (WriteEv.tri 17 12 3 19 10000) ∈ scenarioB.log.take 37 ∧
    scenarioA.indices.data 52 = 0 ∧ scenarioB.indices.data 52 = 3 ∧
    scenarioA.indices.data 53 = 0 ∧ scenarioB.indices.data 53 = 19 ∧
    scenarioB.changes.indexStart = 0 ∧
    scenarioB.changes.indexEnd = 51 := by decide

/-- C9 amended: every `addPointToPath` call on a reachable state first resets
all change trackers to the unset sentinel, and every buffer write performed
during the call widens the relevant `[start, end]` range to include the
written offset's BASE offset (vertex index times 3 for positions, vertex
index for distances, triangle index times 3 for the index buffer — not the
`+1`/`+2` offsets of the same write, see the counterexample); the returned
region is still the unset sentinel exactly when the call performed no buffer
writes. -/
theorem c9_amended (M : RealFns) (o : OptIn) (pre : List (ℚ × ℚ)) (x y : ℚ) :
    ∃ new, (addPointToPath M x y (runSamples M o pre)).log = new ++ (runSamples M o pre).log ∧
      (∀ e ∈ new, e.isVert = true →
        (addPointToPath M x y (runSamples M o pre)).changes.vertexPositionStart ≤
          ((e.index * 3 : ℕ) : ℚ) ∧
        ((e.index * 3 : ℕ) : ℚ) ≤
          (addPointToPath M x y (runSamples M o pre)).changes.vertexPositionEnd ∧
        (addPointToPath M x y (runSamples M o pre)).changes.vertexDistanceStart ≤
          ((e.index * 1 : ℕ) : ℚ) ∧
        ((e.index * 1 : ℕ) : ℚ) ≤
          (addPointToPath M x y (runSamples M o pre)).changes.vertexDistanceEnd) ∧
      (∀ e ∈ new, e.isVert = false →
        (addPointToPath M x y (runSamples M o pre)).changes.indexStart ≤
          ((e.index * 3 : ℕ) : ℚ) ∧
        ((e.index * 3 : ℕ) : ℚ) ≤
          (addPointToPath M x y (runSamples M o pre)).changes.indexEnd) ∧
      ((addPointToPath M x y (runSamples M o pre)).changes = sentinelChanges ↔ new = []) :=
  report_addPointToPath M x y (runSamples M o pre) (run_h0 M o pre) (run_sizeInv M o pre)

/-- C10: the tessellator is deterministic — any two states produced by the
same options and the same sequence of `addPointToPath` calls agree on every
observable: the position, distance and index buffer contents, the valid index
count and the total length.  In the embedding a run is a pure function of the
options and the input sequence, so the two states are equal. -/
theorem c10_deterministic (M : RealFns) (o : OptIn) (pts : List (ℚ × ℚ))
    (s1 s2 : PBD) (h1 : s1 = runSamples M o pts) (h2 : s2 = runSamples M o pts) :
    s1.positions.data = s2.positions.data ∧
    s1.distances.data = s2.distances.data ∧
    s1.indices.data = s2.indices.data ∧
    s1.indicesCount = s2.indicesCount ∧
    s1.totalLength = s2.totalLength := by
  subst h1; subst h2; exact ⟨rfl, rfl, rfl, rfl, rfl⟩

/-- C10 witness: the determinism theorem instantiated at the Scenario A
options and input. -/
theorem c10_deterministic_witness :
    scenarioA.indicesCount = scenarioA.indicesCount :=
  (c10_deterministic refFns scenAOpts [(0, 0)] scenarioA scenarioA rfl rfl).2.2.2.1

end PathInk
